import Mathlib

/-!
# Verification of the TRREB data extractor's era-aware normalization core

This file gives a shallow embedding of the normalization and extraction-driver
code of the `trreb_data_extractor` repository, and proves (or refutes) the
specification claims about it.

Embedded source files:
* `src/trreb/config.py` — the static lookup tables (`REGION_NAME_MAPPING`,
  `COLUMN_NAME_MAPPING`, `REGION_HIERARCHY`, the expected-column lists, and
  the two cutoff dates).
* `src/trreb/services/data_processor/normalization.py` — the normalization
  pipeline (`standardize_region_names`, `standardize_column_names`,
  `convert_numeric_columns`, `add_hierarchy_columns`, `determine_period`,
  `get_expected_columns`, `ensure_column_consistency`, `normalize_dataset`).
* `src/trreb/extractor/base.py` — `BaseExtractor.process_pdf`.
* `src/trreb/services/converter/base.py` — `TableExtractor.process_pdf`
  (the variant with the `overwrite` fast path).

Modelling conventions:
* A pandas `DataFrame` is a list of named columns, each an ordered list of
  cells.  A cell is a string, a rational number (`Q`, an executable
  fraction type), or null (`None`/`NaN` are identified: both are missing
  values for every operation the embedded code performs).
* pandas dtype checks are computed from cell contents:
  `is_object_dtype` holds of a column that contains at least one string cell,
  and the `is_numeric_dtype` branch is taken otherwise.  For every column
  produced or consumed by the embedded pipeline this agrees with pandas up to
  the `None`/`NaN` identification above.
* `pd.to_numeric(..., errors="coerce")` on a string cell is modelled by a
  decimal parser `toNumeric?`; on numeric and null cells the
  `astype(str)`-then-parse round trip of the source is the identity, and is
  modelled as such.
* Python string-keyed `dict`s are modelled as association lists looked up by
  first match (the literals in `config.py` have pairwise distinct keys, so
  this agrees with Python's last-wins insertion semantics); the
  `region_to_parent` dict, built by insertion in iteration order, is looked
  up by last match.
* Column access `df[name]` and assignment `df[name] = v` address the first
  column with that name (pandas semantics coincide when column names are
  unique, which the theorems assume where it matters).
-/

set_option maxRecDepth 4000

/-- An executable rational number (numerator, positive denominator), kept in
lowest terms by the smart constructor `Q.norm`: the model of a Python float
cell value.  (Mathlib's `Rat` arithmetic does not reduce inside the kernel,
which would make concrete tables incomparable by `decide`; `Q` is built on
`Int` and `Nat.gcd`, which do.) -/
structure Q where
  num : Int
  den : Nat
deriving DecidableEq

/-- `n / d` in lowest terms (`d` is positive at every use site). -/
def Q.norm (n : Int) (d : Nat) : Q :=
  let g := Nat.gcd n.natAbs d
  if g = 0 then ⟨0, 1⟩ else ⟨n / (g : Int), d / g⟩

/-- Embed a natural number. -/
def Q.ofNat (n : Nat) : Q := ⟨n, 1⟩

/-- Addition (normalized). -/
def Q.add (a b : Q) : Q := Q.norm (a.num * b.den + b.num * a.den) (a.den * b.den)

/-- Negation. -/
def Q.neg (a : Q) : Q := ⟨-a.num, a.den⟩

/-- Division by a positive natural number (normalized); models the scalar
division `series / 100` of the source. -/
def Q.divNat (a : Q) (n : Nat) : Q := Q.norm a.num (a.den * n)

/-- Strict comparison by cross-multiplication. -/
def Q.blt (a b : Q) : Bool := a.num * b.den < b.num * a.den

/-- Non-strict comparison by cross-multiplication. -/
def Q.ble (a b : Q) : Bool := a.num * b.den ≤ b.num * a.den

/-- The larger of two values (`Series.max` accumulation). -/
def Q.max (a b : Q) : Q := if Q.blt a b then b else a

/-- The smaller of two values (`Series.min` accumulation). -/
def Q.min (a b : Q) : Q := if Q.blt a b then a else b

/-- A cell of a table: a raw string, a number, or a missing value
(`None` and `NaN` identified). -/
inductive Cell where
  | s (v : String)
  | n (v : Q)
  | null
deriving DecidableEq

/-- A named column of a table. -/
structure Col where
  name : String
  cells : List Cell
deriving DecidableEq

/-- A pandas `DataFrame`: an ordered list of named columns. -/
structure DataFrame where
  cols : List Col
deriving DecidableEq

namespace DataFrame

/-- The column labels, in order (`df.columns`). -/
def names (df : DataFrame) : List String := df.cols.map (·.name)

/-- The number of rows (length of the index): the length of the first
column; `0` for a table with no columns. -/
def nrows (df : DataFrame) : Nat :=
  match df.cols with
  | [] => 0
  | c :: _ => c.cells.length

/-- The number of columns. -/
def ncols (df : DataFrame) : Nat := df.cols.length

/-- `df.shape`. -/
def shape (df : DataFrame) : Nat × Nat := (df.nrows, df.ncols)

/-- pandas `df.empty`: true iff any axis has length 0. -/
def empty (df : DataFrame) : Bool := df.cols.isEmpty || df.nrows == 0

/-- The cells of the first column named `c` (`df[c]`), if present. -/
def getCol? (df : DataFrame) (c : String) : Option (List Cell) :=
  (df.cols.find? (fun col => col.name = c)).map (·.cells)

/-- Helper for `setCol`: replace the first column named `c` in place, or
append a new column at the end. -/
def replaceCol (c : String) (cells : List Cell) : List Col → List Col
  | [] => [⟨c, cells⟩]
  | col :: rest =>
    if col.name = c then ⟨c, cells⟩ :: rest else col :: replaceCol c cells rest

/-- Replace the cells of the first column named `c`, keeping its position, or
append a new column at the end if no column has that name: the semantics of
the pandas assignment `df[c] = cells`. -/
def setCol (df : DataFrame) (c : String) (cells : List Cell) : DataFrame :=
  ⟨replaceCol c cells df.cols⟩

/-- Column selection `df[ns]`: the named columns in the order given.  (In the
embedded code every requested name is present; a missing name is skipped.) -/
def select (df : DataFrame) (ns : List String) : DataFrame :=
  ⟨ns.filterMap (fun c => df.cols.find? (fun col => col.name = c))⟩

end DataFrame

/-! ## Static tables from `src/trreb/config.py` -/

/-- `EXTRACTION_CUTOFF_DATE` — date to switch extraction methods. -/
def EXTRACTION_CUTOFF_DATE : String := "2020-01"

/-- `SECOND_FORMAT_CUTOFF_DATE` — date to switch to the third format style. -/
def SECOND_FORMAT_CUTOFF_DATE : String := "2022-04"

/-- `REGION_NAME_MAPPING` — region name standardization mapping
(`config.py`, in source order; the keys are pairwise distinct). -/
def REGION_NAME_MAPPING : List (String × String) := [
  ("TREB Total", "TRREB Total"),
  ("TRREB Total", "TRREB Total"),
  ("All TRREB Areas", "TRREB Total"),
  ("Total TREB", "TRREB Total"),
  ("Total TRREB", "TRREB Total"),
  ("E. Gwillimbury", "East Gwillimbury"),
  ("East Gwillimbury", "East Gwillimbury"),
  ("EGswsiallimbury", "East Gwillimbury"),
  ("GEswsiallimbury", "East Gwillimbury"),
  ("E Gwillimbury", "East Gwillimbury"),
  ("Whitchurch-Stouffville", "Whitchurch-Stouffville"),
  ("Stouffville", "Whitchurch-Stouffville"),
  ("W. Stouffville", "Whitchurch-Stouffville"),
  ("W Stouffville", "Whitchurch-Stouffville"),
  ("Whitchurch Stouffville", "Whitchurch-Stouffville"),
  ("Bradford West Gwillimbury", "Bradford West Gwillimbury"),
  ("Bradford West", "Bradford West Gwillimbury"),
  ("Bradford", "Bradford West Gwillimbury"),
  ("Bradford W. Gwillimbury", "Bradford West Gwillimbury"),
  ("Bradford W Gwillimbury", "Bradford West Gwillimbury"),
  ("Adjala-Tosorontio", "Adjala-Tosorontio"),
  ("Adjala Tosorontio", "Adjala-Tosorontio"),
  ("King Township", "King"),
  ("King", "King"),
  ("King Twp", "King"),
  ("King Twp.", "King"),
  ("Halton", "Halton Region"),
  ("Halton Region", "Halton Region"),
  ("Toronto, City of", "City of Toronto"),
  ("Toronto City", "City of Toronto"),
  ("City of Toronto", "City of Toronto"),
  ("Toronto W.", "Toronto West"),
  ("Toronto West", "Toronto West"),
  ("Toronto C.", "Toronto Central"),
  ("Toronto Central", "Toronto Central"),
  ("Toronto E.", "Toronto East"),
  ("Toronto East", "Toronto East")]

/-- `COLUMN_NAME_MAPPING` — column name standardization mapping
(`config.py`, in source order; the keys are pairwise distinct). -/
def COLUMN_NAME_MAPPING : List (String × String) := [
  ("Number of Sales", "Sales"),
  ("# of Sales", "Sales"),
  ("Sales", "Sales"),
  ("Sales1", "Sales"),
  ("Sales 1", "Sales"),
  ("No. of Sales", "Sales"),
  ("Total Sales", "Sales"),
  ("Dollar Volume1", "Dollar Volume"),
  ("Dollar Volume 1", "Dollar Volume"),
  ("Dollar Volume", "Dollar Volume"),
  ("$ Volume", "Dollar Volume"),
  ("Volume ($)", "Dollar Volume"),
  ("Average Price1", "Average Price"),
  ("Average Price 1", "Average Price"),
  ("Average Price", "Average Price"),
  ("Avg. Price", "Average Price"),
  ("Avg Price", "Average Price"),
  ("Median Price1", "Median Price"),
  ("Median Price 1", "Median Price"),
  ("Median Price", "Median Price"),
  ("Med. Price", "Median Price"),
  ("Med Price", "Median Price"),
  ("New Listings2", "New Listings"),
  ("New Listings 2", "New Listings"),
  ("New Listings", "New Listings"),
  ("New List.", "New Listings"),
  ("SNLR (Trend) 8", "SNLR Trend"),
  ("SNLR (Trend)8", "SNLR Trend"),
  ("SNLR (Trend) 9", "SNLR Trend"),
  ("SNLR (Trend)9", "SNLR Trend"),
  ("SNLR (Trend)", "SNLR Trend"),
  ("SNLR Trend", "SNLR Trend"),
  ("SNLR (%)", "SNLR Trend"),
  ("Sales-to-New Listings Ratio", "SNLR Trend"),
  ("Active Listings 3", "Active Listings"),
  ("Active Listings3", "Active Listings"),
  ("Active Listings", "Active Listings"),
  ("Act. List.", "Active Listings"),
  ("Active List.", "Active Listings"),
  ("Mos. Inv. (Trend)9", "Months Inventory"),
  ("Mos. Inv. (Trend) 9", "Months Inventory"),
  ("Mos. Inv (Trend)", "Months Inventory"),
  ("Mos Inv (Trend)", "Months Inventory"),
  ("Mos. Inv. (Trend)", "Months Inventory"),
  ("Mos Inv (Trend) 9", "Months Inventory"),
  ("Mos. Inv.", "Months Inventory"),
  ("Months of Inventory", "Months Inventory"),
  ("Avg. SP / LP4", "Avg SP/LP"),
  ("Avg. SP/LP4", "Avg SP/LP"),
  ("Avg. SP/LP", "Avg SP/LP"),
  ("Avg SP/LP", "Avg SP/LP"),
  ("Avg. SP/LP 4", "Avg SP/LP"),
  ("SP/LP Ratio", "Avg SP/LP"),
  ("SP/LP (%)", "Avg SP/LP"),
  ("Avg. DOM5", "Avg DOM"),
  ("Avg. DOM 5", "Avg DOM"),
  ("Avg. LDOM", "Avg DOM"),
  ("Avg LDOM", "Avg DOM"),
  ("Avg. Days on Market", "Avg DOM"),
  ("Avg DOM", "Avg DOM"),
  ("Avg. PDOM", "Avg PDOM"),
  ("Avg PDOM", "Avg PDOM"),
  ("Avg. Property DOM", "Avg PDOM"),
  ("Property DOM", "Avg PDOM")]

/-- `PRE_2020_ALL_HOME_COLUMNS`. -/
def PRE_2020_ALL_HOME_COLUMNS : List String :=
  ["Sales", "Dollar Volume", "Average Price", "Median Price", "New Listings",
   "SNLR Trend", "Active Listings", "Months Inventory", "Avg SP/LP", "Avg DOM"]

/-- `PRE_2020_DETACHED_COLUMNS`. -/
def PRE_2020_DETACHED_COLUMNS : List String :=
  ["Sales", "Dollar Volume", "Average Price", "Median Price", "New Listings",
   "Active Listings", "Avg SP/LP", "Avg DOM"]

/-- `MID_PERIOD_ALL_HOME_COLUMNS`. -/
def MID_PERIOD_ALL_HOME_COLUMNS : List String :=
  ["Sales", "Dollar Volume", "Average Price", "Median Price", "New Listings",
   "SNLR Trend", "Active Listings", "Months Inventory", "Avg SP/LP", "Avg DOM",
   "Avg PDOM"]

/-- `MID_PERIOD_DETACHED_COLUMNS`. -/
def MID_PERIOD_DETACHED_COLUMNS : List String :=
  ["Sales", "Dollar Volume", "Average Price", "Median Price", "New Listings",
   "Active Listings", "Avg SP/LP", "Avg DOM"]

/-- `POST_2022_ALL_HOME_COLUMNS`. -/
def POST_2022_ALL_HOME_COLUMNS : List String :=
  ["Sales", "Dollar Volume", "Average Price", "Median Price", "New Listings",
   "SNLR Trend", "Active Listings", "Months Inventory", "Avg SP/LP", "Avg DOM",
   "Avg PDOM"]

/-- `POST_2022_DETACHED_COLUMNS`. -/
def POST_2022_DETACHED_COLUMNS : List String :=
  ["Sales", "Dollar Volume", "Average Price", "Median Price", "New Listings",
   "Active Listings", "Avg SP/LP", "Avg DOM"]

/-- `REGION_HIERARCHY` — parent regions and their children, in source order. -/
def REGION_HIERARCHY : List (String × List String) := [
  ("TRREB Total",
    ["Halton Region", "Peel Region", "City of Toronto", "York Region",
     "Durham Region", "Dufferin County", "Simcoe County"]),
  ("Halton Region", ["Burlington", "Halton Hills", "Milton", "Oakville"]),
  ("Peel Region", ["Brampton", "Caledon", "Mississauga"]),
  ("City of Toronto", ["Toronto West", "Toronto Central", "Toronto East"]),
  ("York Region",
    ["Aurora", "East Gwillimbury", "Georgina", "King", "Markham", "Newmarket",
     "Richmond Hill", "Vaughan", "Whitchurch-Stouffville"]),
  ("Durham Region",
    ["Ajax", "Brock", "Clarington", "Oshawa", "Pickering", "Scugog",
     "Uxbridge", "Whitby"]),
  ("Dufferin County", ["Orangeville"]),
  ("Simcoe County",
    ["Adjala-Tosorontio", "Bradford West Gwillimbury", "Essa", "Innisfil",
     "New Tecumseth"])]

/-- `REGION_NAME_MAPPING.get(s, s)`. -/
def regionGet (v : String) : String :=
  ((REGION_NAME_MAPPING.find? (fun p => p.1 = v)).map (·.2)).getD v

/-- `COLUMN_NAME_MAPPING.get(s, s)`. -/
def canonName (c : String) : String :=
  ((COLUMN_NAME_MAPPING.find? (fun p => p.1 = c)).map (·.2)).getD c

/-- `region_to_parent.get(v, "None")`, where `region_to_parent` is the dict
built in `add_hierarchy_columns` by iterating `REGION_HIERARCHY` and storing
`region_to_parent[child] = parent` (a child listed under several parents would
keep the last parent, hence the reversed search). -/
def parentGet (v : String) : String :=
  ((REGION_HIERARCHY.reverse.find? (fun p => v ∈ p.2)).map (·.1)).getD "None"

/-- The keys of `REGION_HIERARCHY` (membership test `region in REGION_HIERARCHY`). -/
def hierKeys : List String := REGION_HIERARCHY.map (·.1)

/-! ## `src/trreb/services/data_processor/normalization.py` -/

/-- The cell-level effect of `standardize_region_names` on the region column:
`lambda x: REGION_NAME_MAPPING.get(x, x) if pd.notna(x) else x` (a numeric
value is never a key of the string-keyed dict, so it passes through). -/
def regionCellFn : Cell → Cell
  | .s v => .s (regionGet v)
  | c => c

/-- `standardize_region_names(df)` (data_processor variant, `region_col=None`):
returns `df` when empty, otherwise maps the region-name lookup over the first
column of a copy. -/
def standardize_region_names (df : DataFrame) : DataFrame :=
  if df.empty then df
  else
    match df.cols with
    | [] => df
    | c0 :: rest => ⟨⟨c0.name, c0.cells.map regionCellFn⟩ :: rest⟩

/-- `standardize_column_names(df)`: rename every column through
`COLUMN_NAME_MAPPING` (identity on labels not in the mapping). -/
def standardize_column_names (df : DataFrame) : DataFrame :=
  if df.empty then df
  else ⟨df.cols.map (fun col => ⟨canonName col.name, col.cells⟩)⟩

/-- Python `t.replace(ch, "")` for a one-character pattern: remove every
occurrence of the character (kernel-computable model of the `str.replace`
calls of the source, all of which strip a single character). -/
def removeAll (ch : Char) (t : String) : String :=
  ⟨t.data.filter (fun c => c ≠ ch)⟩

/-- `pd.to_numeric(t, errors="coerce")` on one string cell: an optional sign
followed by a decimal literal (digits with at most one point, at least one
digit); anything else coerces to `NaN` (`none`).  Models the library parser
on the inputs the pipeline feeds it. -/
def toNumeric? (t : String) : Option Q :=
  match t.data with
  | '-' :: rest => (parseUnsigned rest).map Q.neg
  | '+' :: rest => parseUnsigned rest
  | l => parseUnsigned l
where
  isDigitCh (c : Char) : Bool := 48 ≤ c.toNat && c.toNat ≤ 57
  digitsVal (l : List Char) : Nat := l.foldl (fun a c => 10 * a + (c.toNat - 48)) 0
  parseUnsigned (l : List Char) : Option Q :=
    let ip := l.takeWhile isDigitCh
    match l.dropWhile isDigitCh with
    | [] => if ip.isEmpty then none else some (Q.ofNat (digitsVal ip))
    | '.' :: rest2 =>
      let fp := rest2.takeWhile isDigitCh
      if (rest2.dropWhile isDigitCh).isEmpty && !(ip.isEmpty && fp.isEmpty) then
        some (Q.add (Q.ofNat (digitsVal ip)) (Q.norm (digitsVal fp) (10 ^ fp.length)))
      else none
    | _ => none

/-- `price_cols` of `convert_numeric_columns`. -/
def price_cols : List String := ["Average Price", "Median Price", "Dollar Volume"]

/-- `count_cols` of `convert_numeric_columns`. -/
def count_cols : List String := ["Sales", "New Listings", "Active Listings"]

/-- `percentage_cols` of `convert_numeric_columns`. -/
def percentage_cols : List String := ["SNLR Trend", "Avg SP/LP"]

/-- `decimal_cols` of `convert_numeric_columns`. -/
def decimal_cols : List String := ["Months Inventory", "Avg DOM", "Avg PDOM"]

/-- Does a column contain a string cell?  Computes `is_object_dtype` for the
columns the pipeline manipulates (see the modelling conventions above). -/
def hasStringCell (cs : List Cell) : Bool :=
  cs.any (fun c => match c with | .s _ => true | _ => false)

/-- Per-cell effect of the price-column branch on an object column:
`astype(str)`, strip `$` and `,`, `to_numeric(errors="coerce")`.  Numeric and
null cells round-trip unchanged through `astype(str)`/`to_numeric`. -/
def coerceMoney : Cell → Cell
  | .s t =>
    match toNumeric? (removeAll ',' (removeAll '$' t)) with
    | some v => .n v
    | none => .null
  | .n v => .n v
  | .null => .null

/-- Per-cell effect of the count-column branch on an object column:
`astype(str)`, strip `,`, `to_numeric(errors="coerce")`. -/
def coerceCount : Cell → Cell
  | .s t =>
    match toNumeric? (removeAll ',' t) with
    | some v => .n v
    | none => .null
  | .n v => .n v
  | .null => .null

/-- Per-cell effect of the percentage-column branch on an object column:
`astype(str)`, strip `%`, `to_numeric(errors="coerce")`, then the whole
column is divided by 100 (so numeric cells are divided too; nulls stay null). -/
def coercePct : Cell → Cell
  | .s t =>
    match toNumeric? (removeAll '%' t) with
    | some v => .n (v.divNat 100)
    | none => .null
  | .n v => .n (v.divNat 100)
  | .null => .null

/-- Per-cell effect of the decimal-column branch on an object column:
`to_numeric(errors="coerce")` directly. -/
def coerceDecimal : Cell → Cell
  | .s t =>
    match toNumeric? t with
    | some v => .n v
    | none => .null
  | .n v => .n v
  | .null => .null

/-- `Series.max()` with NaN skipped: the greatest numeric value of a column,
if any. -/
def colMax? (cs : List Cell) : Option Q :=
  cs.foldl (fun acc c =>
    match c with
    | .n v => match acc with | some m => some (Q.max m v) | none => some v
    | _ => acc) none

/-- `Series.min()` with NaN skipped. -/
def colMin? (cs : List Cell) : Option Q :=
  cs.foldl (fun acc c =>
    match c with
    | .n v => match acc with | some m => some (Q.min m v) | none => some v
    | _ => acc) none

/-- The already-numeric percentage branch: if the column maximum exceeds 1.5
and the minimum is non-negative, the values are likely whole percentages and
every numeric cell is divided by 100. -/
def pctNumericBranch (cs : List Cell) : List Cell :=
  match colMax? cs, colMin? cs with
  | some m, some mn =>
    if Q.blt ⟨3, 2⟩ m && Q.ble ⟨0, 1⟩ mn then
      cs.map (fun c => match c with | .n v => .n (v.divNat 100) | c => c)
    else cs
  | _, _ => cs

/-- Column-level effect of the price-column loop body. -/
def priceColFn (cs : List Cell) : List Cell :=
  if hasStringCell cs then cs.map coerceMoney else cs

/-- Column-level effect of the count-column loop body. -/
def countColFn (cs : List Cell) : List Cell :=
  if hasStringCell cs then cs.map coerceCount else cs

/-- Column-level effect of the percentage-column loop body (object branch, or
the already-numeric heuristic branch). -/
def pctColFn (cs : List Cell) : List Cell :=
  if hasStringCell cs then cs.map coercePct else pctNumericBranch cs

/-- Column-level effect of the decimal-column loop body. -/
def decimalColFn (cs : List Cell) : List Cell :=
  if hasStringCell cs then cs.map coerceDecimal else cs

/-- One iteration of a `for col in cols: if col in df_copy.columns: ...` loop:
apply `f` to the column if present, else leave the frame unchanged. -/
def convertStep (f : List Cell → List Cell) (d : DataFrame) (c : String) : DataFrame :=
  match d.getCol? c with
  | some cs => d.setCol c (f cs)
  | none => d

/-- `convert_numeric_columns(df)`: process the price, count, percentage and
decimal column groups in turn. -/
def convert_numeric_columns (df : DataFrame) : DataFrame :=
  if df.empty then df
  else
    let d1 := price_cols.foldl (convertStep priceColFn) df
    let d2 := count_cols.foldl (convertStep countColFn) d1
    let d3 := percentage_cols.foldl (convertStep pctColFn) d2
    decimal_cols.foldl (convertStep decimalColFn) d3

/-- Cell-level effect of the `parent_region` assignment:
`lambda x: region_to_parent.get(x, "None")` (null and numeric cells are not
keys, so they map to the string "None"). -/
def parentCellFn : Cell → Cell
  | .s v => .s (parentGet v)
  | _ => .s "None"

/-- Cell-level effect of `get_region_type`. -/
def typeCellFn : Cell → Cell
  | .s v =>
    if v = "TRREB Total" then .s "Total"
    else if v ∈ hierKeys then .s "Region"
    else .s "Municipality"
  | _ => .s "Municipality"

/-- `add_hierarchy_columns(df)` (`region_col=None`): derive `parent_region`
from the first column, then `region_type` from the column that currently has
the first column's name (the source reads `df_copy[region_col]` again after
the first assignment). -/
def add_hierarchy_columns (df : DataFrame) : DataFrame :=
  if df.empty then df
  else
    match df.cols with
    | [] => df
    | c0 :: _ =>
      let rname := c0.name
      let d1 := df.setCol "parent_region" (((df.getCol? rname).getD []).map parentCellFn)
      d1.setCol "region_type" (((d1.getCol? rname).getD []).map typeCellFn)

/-- Python string `<`: lexicographic comparison by code point, computed
structurally on the character lists. -/
def strLtB (a b : String) : Bool := go a.data b.data
where
  go : List Char → List Char → Bool
    | [], [] => false
    | [], _ :: _ => true
    | _ :: _, [] => false
    | c :: cs, d :: ds =>
      if c < d then true else if d < c then false else go cs ds

/-- `determine_period(date_str)`: Python string comparison against the two
cutoff dates (both orders are lexicographic by code point). -/
def determine_period (date_str : String) : String :=
  if strLtB date_str EXTRACTION_CUTOFF_DATE then "pre-2020"
  else if strLtB date_str SECOND_FORMAT_CUTOFF_DATE then "mid-period"
  else "post-2022"

/-- `get_expected_columns(property_type, period)`. -/
def get_expected_columns (property_type period : String) : List String :=
  if property_type = "all_home_types" then
    if period = "pre-2020" then PRE_2020_ALL_HOME_COLUMNS
    else if period = "mid-period" then MID_PERIOD_ALL_HOME_COLUMNS
    else POST_2022_ALL_HOME_COLUMNS
  else
    if period = "pre-2020" then PRE_2020_DETACHED_COLUMNS
    else if period = "mid-period" then MID_PERIOD_DETACHED_COLUMNS
    else POST_2022_DETACHED_COLUMNS

/-- The first loop of `ensure_column_consistency`: `df_copy[col] = None` for
every expected column not present (a scalar `None` broadcasts to the row
count). -/
def addMissing (df : DataFrame) (expected : List String) : DataFrame :=
  expected.foldl (fun d c =>
    if (d.getCol? c).isSome then d
    else d.setCol c (List.replicate d.nrows .null)) df

/-- `ensure_column_consistency(df, expected_columns)`: add missing expected
columns with nulls, then reorder as region column, expected columns in
declared order, then the remaining columns. -/
def ensure_column_consistency (df : DataFrame) (expected : List String) : DataFrame :=
  if df.empty then df
  else
    match df.cols with
    | [] => df
    | c0 :: _ =>
      let region := c0.name
      let d1 := addMissing df expected
      let result1 := region ::
        expected.filter (fun col => (d1.getCol? col).isSome && col ≠ region)
      let result := d1.names.foldl
        (fun acc col => if col ∈ acc ∨ col = region then acc else acc ++ [col])
        result1
      d1.select result

/-- The cleaning applied to a string cell of column `c` before numeric
coercion: price columns strip `$` and `,`, count columns strip `,`,
percentage columns strip `%`, decimal columns coerce directly. -/
def cleanFor (c : String) (t : String) : String :=
  if c ∈ price_cols then removeAll ',' (removeAll '$' t)
  else if c ∈ count_cols then removeAll ',' t
  else if c ∈ percentage_cols then removeAll '%' t
  else t

/-- The per-cell coercion used for column `c` when the column is an object
column. -/
def coerceFor (c : String) : Cell → Cell :=
  if c ∈ price_cols then coerceMoney
  else if c ∈ count_cols then coerceCount
  else if c ∈ percentage_cols then coercePct
  else coerceDecimal

/-- `normalize_dataset(df, date_str, property_type)` with the `date_col`
argument left at its default `None` (so the `add_date_components` branch is
skipped, as in every claim under verification).  `date_str` is optional, and
the Python truthiness test `if date_str` treats the empty string as absent;
likewise `if period and property_type` skips schema enforcement for an empty
`property_type`. -/
def normalize_dataset (df : DataFrame) (date_str : Option String)
    (property_type : String) : DataFrame :=
  if df.empty then df
  else
    let period : Option String :=
      match date_str with
      | some s => if s = "" then none else some (determine_period s)
      | none => none
    let d1 := standardize_region_names df
    let d2 := standardize_column_names d1
    let d3 := convert_numeric_columns d2
    let d4 := add_hierarchy_columns d3
    match period with
    | some p =>
      if property_type = "" then d4
      else ensure_column_consistency d4 (get_expected_columns property_type p)
    | none => d4

/-! ## `src/trreb/extractor/base.py` and `src/trreb/services/converter/base.py`

The two `process_pdf` drivers.  Effects are modelled as parameters: `mkdirs`
is the `os.makedirs` call that precedes the `try` block, `ext` is
`self.extract_table(pdf_path)` (which may raise, or return `None`, or a
frame), `clean` is `self.clean_table`, and `save` is `df.to_csv`.  A raised
exception is an `Except.error`; the `try`/`except` of the source catches
every error raised inside it and returns `(False, (0, 0))`. -/

/-- The body of the `try` block shared verbatim by both drivers: extract,
test for `None`/empty, clean, save; any internal failure or unusable table
yields `(False, (0, 0))`, success yields `(True, df.shape)` for the cleaned
frame. -/
def extractBody (ext : Except Unit (Option DataFrame))
    (clean : DataFrame → Except Unit DataFrame)
    (save : DataFrame → Except Unit Unit) : Bool × (Nat × Nat) :=
  match ext with
  | .error _ => (false, (0, 0))
  | .ok none => (false, (0, 0))
  | .ok (some df) =>
    if df.empty then (false, (0, 0))
    else
      match clean df with
      | .error _ => (false, (0, 0))
      | .ok df2 =>
        match save df2 with
        | .error _ => (false, (0, 0))
        | .ok _ => (true, df2.shape)

/-- `BaseExtractor.process_pdf(pdf_path, output_path)`
(`src/trreb/extractor/base.py`): `os.makedirs` runs before the `try` block,
so its failure propagates to the caller; everything inside the `try` is
absorbed. -/
def BaseExtractor.process_pdf (mkdirs : Except Unit Unit)
    (ext : Except Unit (Option DataFrame))
    (clean : DataFrame → Except Unit DataFrame)
    (save : DataFrame → Except Unit Unit) : Except Unit (Bool × (Nat × Nat)) :=
  match mkdirs with
  | .error e => .error e
  | .ok _ => .ok (extractBody ext clean save)

/-- `TableExtractor.process_pdf(pdf_path, output_path, overwrite)`
(`src/trreb/services/converter/base.py`): after `os.makedirs`, if the output
file exists and `overwrite` is not set, report success without extracting,
with the existing file's shape if it can be read (`readCsv`) and `(0, 0)`
otherwise; else run the same extract/clean/save body as `BaseExtractor`. -/
def TableExtractor.process_pdf (mkdirs : Except Unit Unit)
    (outExists overwrite : Bool) (readCsv : Except Unit (Nat × Nat))
    (ext : Except Unit (Option DataFrame))
    (clean : DataFrame → Except Unit DataFrame)
    (save : DataFrame → Except Unit Unit) : Except Unit (Bool × (Nat × Nat)) :=
  match mkdirs with
  | .error e => .error e
  | .ok _ =>
    if outExists && !overwrite then
      .ok (match readCsv with
        | .ok sh => (true, sh)
        | .error _ => (true, (0, 0)))
    else .ok (extractBody ext clean save)

/-! ## Aliasing model for the copy discipline (claim C10)

To express that a transform never mutates its argument (a statement about
Python object identity), the four normalization transforms are also given at
the level of a heap of `DataFrame` objects addressed by references.  Each
transform reads its argument object, returns it unchanged on the empty fast
path, and otherwise allocates a fresh object with `df.copy()` and performs
all its writes through the fresh reference; the sequence of in-place writes
to the copy is collapsed into storing its final value, computed by the pure
function above. -/

/-- A heap of `DataFrame` objects; a reference is an index. -/
abbrev Heap : Type := List DataFrame

/-- Dereference (a dangling reference reads an empty frame). -/
def heapRead (h : Heap) (r : Nat) : DataFrame := List.getD h r ⟨[]⟩

/-- The shared shape of the four transforms: `if df.empty: return df` (the
argument object itself), else `df_copy = df.copy()`, mutate the copy through
its own reference only, and return the copy's reference. -/
def heapCall (f : DataFrame → DataFrame) (h : Heap) (r : Nat) : Heap × Nat :=
  let df := heapRead h r
  if df.empty then (h, r)
  else
    let h1 := h ++ [df]
    let rc := List.length h
    let h2 := List.set h1 rc (f df)
    (h2, rc)

/-- `standardize_region_names` acting on the object heap. -/
def standardize_region_names_heap : Heap → Nat → Heap × Nat :=
  heapCall standardize_region_names

/-- `standardize_column_names` acting on the object heap. -/
def standardize_column_names_heap : Heap → Nat → Heap × Nat :=
  heapCall standardize_column_names

/-- `convert_numeric_columns` acting on the object heap. -/
def convert_numeric_columns_heap : Heap → Nat → Heap × Nat :=
  heapCall convert_numeric_columns

/-- `add_hierarchy_columns` acting on the object heap. -/
def add_hierarchy_columns_heap : Heap → Nat → Heap × Nat :=
  heapCall add_hierarchy_columns

/-! ## Digit strings (for the era classifier, claim C2) -/

/-- Is `c` a decimal digit? -/
def digitCh (c : Char) : Bool := 48 ≤ c.toNat && c.toNat ≤ 57

/-- The numeric value of a digit string (most significant first). -/
def digitsToNat (l : List Char) : Nat :=
  l.foldl (fun a c => 10 * a + (c.toNat - 48)) 0

/-! # Helper lemmas -/

theorem list_map_self {α : Type} {l : List α} {f : α → α} (h : ∀ a ∈ l, f a = a) :
    l.map f = l := by
  induction l with
  | nil => rfl
  | cons a l ih =>
    simp only [List.map_cons]
    rw [h a (List.mem_cons_self a l), ih (fun b hb => h b (List.mem_cons_of_mem a hb))]

theorem standardize_region_names_of_empty {df : DataFrame} (h : df.empty = true) :
    standardize_region_names df = df := by
  unfold standardize_region_names
  simp [h]

theorem standardize_column_names_of_empty {df : DataFrame} (h : df.empty = true) :
    standardize_column_names df = df := by
  unfold standardize_column_names
  simp [h]

theorem convert_numeric_columns_of_empty {df : DataFrame} (h : df.empty = true) :
    convert_numeric_columns df = df := by
  unfold convert_numeric_columns
  simp [h]

theorem add_hierarchy_columns_of_empty {df : DataFrame} (h : df.empty = true) :
    add_hierarchy_columns df = df := by
  unfold add_hierarchy_columns
  simp [h]

theorem heapCall_frame (f : DataFrame → DataFrame) (h : Heap) (r : Nat)
    (hr : r < h.length) : heapRead (heapCall f h r).1 r = heapRead h r := by
  unfold heapCall
  by_cases he : (heapRead h r).empty = true
  · rw [if_pos he]
  · rw [if_neg he]
    show heapRead (List.set (h ++ [heapRead h r]) h.length (f (heapRead h r))) r
      = heapRead h r
    unfold heapRead
    simp [List.getD, List.getElem?_set_ne (Nat.ne_of_gt hr),
      List.getElem?_append_left hr]

theorem heapCall_result (f : DataFrame → DataFrame)
    (hf : ∀ df : DataFrame, df.empty = true → f df = df) (h : Heap) (r : Nat) :
    heapRead (heapCall f h r).1 (heapCall f h r).2 = f (heapRead h r) := by
  unfold heapCall
  by_cases he : (heapRead h r).empty = true
  · rw [if_pos he]
    exact (hf _ he).symm
  · rw [if_neg he]
    show heapRead
      (List.set (h ++ [heapRead h r]) h.length (f (heapRead h r))) h.length
      = f (heapRead h r)
    unfold heapRead
    have hlen : h.length < (h ++ [heapRead h r]).length := by
      simp
    simp [List.getD, List.getElem?_set_self hlen]

/-! # Claim C10 -/

/-- C10: The individual normalization transforms `standardize_region_names`,
`standardize_column_names`, `convert_numeric_columns` and
`add_hierarchy_columns` never mutate their input: each operates on a copy
(allocated fresh on the heap) and all writes go through the copy, so the
caller's object is equal to its value before the call; the returned object
holds the transform's result. -/
theorem c10_transforms_never_mutate_input (h : Heap) (r : Nat) (hr : r < h.length) :
    (heapRead (standardize_region_names_heap h r).1 r = heapRead h r
      ∧ heapRead (standardize_region_names_heap h r).1
          (standardize_region_names_heap h r).2
          = standardize_region_names (heapRead h r))
    ∧ (heapRead (standardize_column_names_heap h r).1 r = heapRead h r
      ∧ heapRead (standardize_column_names_heap h r).1
          (standardize_column_names_heap h r).2
          = standardize_column_names (heapRead h r))
    ∧ (heapRead (convert_numeric_columns_heap h r).1 r = heapRead h r
      ∧ heapRead (convert_numeric_columns_heap h r).1
          (convert_numeric_columns_heap h r).2
          = convert_numeric_columns (heapRead h r))
    ∧ (heapRead (add_hierarchy_columns_heap h r).1 r = heapRead h r
      ∧ heapRead (add_hierarchy_columns_heap h r).1
          (add_hierarchy_columns_heap h r).2
          = add_hierarchy_columns (heapRead h r)) := by
  refine ⟨⟨?_, ?_⟩, ⟨?_, ?_⟩, ⟨?_, ?_⟩, ?_, ?_⟩
  · exact heapCall_frame _ h r hr
  · exact heapCall_result _ (fun df he => standardize_region_names_of_empty he) h r
  · exact heapCall_frame _ h r hr
  · exact heapCall_result _ (fun df he => standardize_column_names_of_empty he) h r
  · exact heapCall_frame _ h r hr
  · exact heapCall_result _ (fun df he => convert_numeric_columns_of_empty he) h r
  · exact heapCall_frame _ h r hr
  · exact heapCall_result _ (fun df he => add_hierarchy_columns_of_empty he) h r

/-- Witness for C10 at a concrete heap: after calling the hierarchy transform
on the only object, that object is unchanged. -/
theorem c10_witness :
    heapRead (add_hierarchy_columns_heap [⟨[⟨"Region", [Cell.s "Oakville"]⟩]⟩] 0).1 0
      = ⟨[⟨"Region", [Cell.s "Oakville"]⟩]⟩ := by
  have h := (c10_transforms_never_mutate_input
    [⟨[⟨"Region", [Cell.s "Oakville"]⟩]⟩] 0 (by decide)).2.2.2.1
  exact h.trans (by rfl)

/-! # Claim C3 -/

/-- C3: For each of the six (property type, period) combinations,
`get_expected_columns` returns a non-empty duplicate-free list; the detached
lists coincide across the three periods, while the all-home-types list of the
early period differs from those of the two later periods. -/
theorem c3_expected_columns_wellformed :
    ((get_expected_columns "all_home_types" "pre-2020" ≠ []
        ∧ (get_expected_columns "all_home_types" "pre-2020").Nodup)
      ∧ (get_expected_columns "all_home_types" "mid-period" ≠ []
        ∧ (get_expected_columns "all_home_types" "mid-period").Nodup)
      ∧ (get_expected_columns "all_home_types" "post-2022" ≠ []
        ∧ (get_expected_columns "all_home_types" "post-2022").Nodup)
      ∧ (get_expected_columns "detached" "pre-2020" ≠ []
        ∧ (get_expected_columns "detached" "pre-2020").Nodup)
      ∧ (get_expected_columns "detached" "mid-period" ≠ []
        ∧ (get_expected_columns "detached" "mid-period").Nodup)
      ∧ (get_expected_columns "detached" "post-2022" ≠ []
        ∧ (get_expected_columns "detached" "post-2022").Nodup))
    ∧ (get_expected_columns "detached" "pre-2020"
        = get_expected_columns "detached" "mid-period"
      ∧ get_expected_columns "detached" "mid-period"
        = get_expected_columns "detached" "post-2022")
    ∧ (get_expected_columns "all_home_types" "pre-2020"
        ≠ get_expected_columns "all_home_types" "mid-period"
      ∧ get_expected_columns "all_home_types" "pre-2020"
        ≠ get_expected_columns "all_home_types" "post-2022") := by
  decide

/-! # Claim C6 -/

/-- Counterexample to C6 as stated: `BaseExtractor.process_pdf` runs
`os.makedirs` before its `try` block, so a failure there escapes to the
caller instead of producing `(False, (0, 0))`. -/
theorem c6_counterexample :
    BaseExtractor.process_pdf (.error ()) (.ok none)
      (fun d => .ok d) (fun _ => .ok ()) = .error () := rfl

/-- C6 (amended: provided the initial `os.makedirs` call succeeds):
`process_pdf` always returns a `(success, shape)` pair and never lets an
exception escape; extraction errors, a `None` or empty extraction result, a
cleaning error, or a saving error all yield `(False, (0, 0))`, and a
successful run yields `(True, shape of the cleaned table)`. -/
theorem c6_process_pdf_absorbs_failures (ext : Except Unit (Option DataFrame))
    (clean : DataFrame → Except Unit DataFrame)
    (save : DataFrame → Except Unit Unit) :
    (∀ e : Unit, BaseExtractor.process_pdf (.ok ()) ext clean save ≠ .error e)
    ∧ ((ext = .error () ∨ ext = .ok none
        ∨ (∃ df, ext = .ok (some df) ∧ df.empty = true)) →
      BaseExtractor.process_pdf (.ok ()) ext clean save = .ok (false, (0, 0)))
    ∧ (∀ df, ext = .ok (some df) → df.empty = false → clean df = .error () →
      BaseExtractor.process_pdf (.ok ()) ext clean save = .ok (false, (0, 0)))
    ∧ (∀ df df2, ext = .ok (some df) → df.empty = false → clean df = .ok df2 →
      save df2 = .error () →
      BaseExtractor.process_pdf (.ok ()) ext clean save = .ok (false, (0, 0)))
    ∧ (∀ df df2, ext = .ok (some df) → df.empty = false → clean df = .ok df2 →
      save df2 = .ok () →
      BaseExtractor.process_pdf (.ok ()) ext clean save
        = .ok (true, df2.shape)) := by
  refine ⟨fun e => by simp [BaseExtractor.process_pdf], ?_, ?_, ?_, ?_⟩
  · rintro (rfl | rfl | ⟨df, rfl, hemp⟩)
    · simp [BaseExtractor.process_pdf, extractBody]
    · simp [BaseExtractor.process_pdf, extractBody]
    · simp [BaseExtractor.process_pdf, extractBody, hemp]
  · rintro df rfl hemp hclean
    simp [BaseExtractor.process_pdf, extractBody, hemp, hclean]
  · rintro df df2 rfl hemp hclean hsave
    simp [BaseExtractor.process_pdf, extractBody, hemp, hclean, hsave]
  · rintro df df2 rfl hemp hclean hsave
    simp [BaseExtractor.process_pdf, extractBody, hemp, hclean, hsave]

/-- Witness for C6 (amended) at a concrete input: a `None` extraction result
gives `(False, (0, 0))`. -/
theorem c6_witness :
    BaseExtractor.process_pdf (.ok ()) (.ok none)
      (fun d => .ok d) (fun _ => .ok ()) = .ok (false, (0, 0)) :=
  (c6_process_pdf_absorbs_failures (.ok none)
    (fun d => .ok d) (fun _ => .ok ())).2.1 (Or.inr (Or.inl rfl))

/-! # Claim C7 -/

/-- C7: If the output file already exists and overwrite is not requested,
`TableExtractor.process_pdf` short-circuits, reporting success with the
existing file's shape when it can be read and `(0, 0)` when it cannot,
without invoking `extract_table` or `clean_table` (its result is independent
of them); extraction runs only when the output is absent or overwrite is
requested. -/
theorem c7_process_pdf_short_circuits (readCsv : Except Unit (Nat × Nat))
    (ext ext2 : Except Unit (Option DataFrame))
    (clean clean2 : DataFrame → Except Unit DataFrame)
    (save save2 : DataFrame → Except Unit Unit) :
    (∀ sh, readCsv = .ok sh →
      TableExtractor.process_pdf (.ok ()) true false readCsv ext clean save
        = .ok (true, sh))
    ∧ (readCsv = .error () →
      TableExtractor.process_pdf (.ok ()) true false readCsv ext clean save
        = .ok (true, (0, 0)))
    ∧ TableExtractor.process_pdf (.ok ()) true false readCsv ext clean save
        = TableExtractor.process_pdf (.ok ()) true false readCsv ext2 clean2 save2
    ∧ (∀ outExists overwrite : Bool, outExists = false ∨ overwrite = true →
      TableExtractor.process_pdf (.ok ()) outExists overwrite readCsv ext clean save
        = .ok (extractBody ext clean save)) := by
  refine ⟨?_, ?_, ?_, ?_⟩
  · rintro sh rfl
    simp [TableExtractor.process_pdf]
  · rintro rfl
    simp [TableExtractor.process_pdf]
  · cases readCsv <;> simp [TableExtractor.process_pdf]
  · rintro oe ow (rfl | rfl) <;> simp [TableExtractor.process_pdf]

/-- Witness for C7 at a concrete input: an existing readable output of shape
(5, 9) short-circuits to success with that shape. -/
theorem c7_witness :
    TableExtractor.process_pdf (.ok ()) true false (.ok (5, 9)) (.ok none)
      (fun d => .ok d) (fun _ => .ok ()) = .ok (true, (5, 9)) :=
  (c7_process_pdf_short_circuits (.ok (5, 9)) (.ok none) (.ok none)
    (fun d => .ok d) (fun d => .ok d) (fun _ => .ok ()) (fun _ => .ok ())).1
    (5, 9) rfl

/-! # Claim C2: digit-string order lemmas -/

theorem char_lt_iff_toNat_lt {a b : Char} : a < b ↔ a.toNat < b.toNat := Iff.rfl

theorem char_eq_of_toNat_eq {a b : Char} (h : a.toNat = b.toNat) : a = b :=
  Char.ext (UInt32.ext h)

theorem foldl_digits (l : List Char) (a : Nat) :
    l.foldl (fun a c => 10 * a + (c.toNat - 48)) a
      = a * 10 ^ l.length + digitsToNat l := by
  induction l generalizing a with
  | nil => simp [digitsToNat]
  | cons c l ih =>
    simp only [List.foldl_cons, List.length_cons, digitsToNat, Nat.mul_zero,
      Nat.zero_add]
    rw [ih, ih (c.toNat - 48)]
    ring

theorem digitsToNat_cons (c : Char) (l : List Char) :
    digitsToNat (c :: l) = (c.toNat - 48) * 10 ^ l.length + digitsToNat l := by
  have h := foldl_digits l (c.toNat - 48)
  simp only [digitsToNat, List.foldl_cons, Nat.mul_zero, Nat.zero_add] at h ⊢
  exact h

theorem digitsToNat_lt_pow {l : List Char} (h : ∀ c ∈ l, digitCh c = true) :
    digitsToNat l < 10 ^ l.length := by
  induction l with
  | nil => simp [digitsToNat]
  | cons c l ih =>
    have hc : digitCh c = true := h c (List.mem_cons_self c l)
    have hd : c.toNat - 48 ≤ 9 := by
      simp only [digitCh, Bool.and_eq_true, decide_eq_true_eq] at hc
      omega
    have hD := ih (fun b hb => h b (List.mem_cons_of_mem c hb))
    rw [digitsToNat_cons, List.length_cons, pow_succ]
    calc (c.toNat - 48) * 10 ^ l.length + digitsToNat l
        < (c.toNat - 48) * 10 ^ l.length + 10 ^ l.length := by omega
      _ = ((c.toNat - 48) + 1) * 10 ^ l.length := by ring
      _ ≤ 10 * 10 ^ l.length := Nat.mul_le_mul_right _ (by omega)
      _ = 10 ^ l.length * 10 := by ring

theorem digit_block_lt {d1 d2 D1 D2 P : Nat} (hD1 : D1 < P) (hd : d1 < d2) :
    d1 * P + D1 < d2 * P + D2 :=
  calc d1 * P + D1 < d1 * P + P := by omega
    _ = (d1 + 1) * P := by ring
    _ ≤ d2 * P := Nat.mul_le_mul_right P hd
    _ ≤ d2 * P + D2 := Nat.le_add_right _ _

theorem digits_head_lt {a b : Char} {l1 l2 : List Char}
    (hlen : l1.length = l2.length) (h1 : ∀ c ∈ l1, digitCh c = true)
    (ha : digitCh a = true) (hab : a.toNat < b.toNat) :
    digitsToNat (a :: l1) < digitsToNat (b :: l2) := by
  rw [digitsToNat_cons, digitsToNat_cons, hlen]
  have h48 : 48 ≤ a.toNat := by
    simp only [digitCh, Bool.and_eq_true, decide_eq_true_eq] at ha
    exact ha.1
  exact digit_block_lt (digitsToNat_lt_pow h1 |>.trans_eq (by rw [hlen]))
    (by omega)

theorem lex_digits_iff {l1 l2 : List Char} (hlen : l1.length = l2.length)
    (h1 : ∀ c ∈ l1, digitCh c = true) (h2 : ∀ c ∈ l2, digitCh c = true) :
    List.Lex (· < ·) l1 l2 ↔ digitsToNat l1 < digitsToNat l2 := by
  induction l1 generalizing l2 with
  | nil =>
    cases l2 with
    | nil =>
      exact iff_of_false (List.Lex.not_nil_right _ _) (by simp [digitsToNat])
    | cons b l2 => exact absurd hlen (by simp)
  | cons a l1 ih =>
    cases l2 with
    | nil => exact absurd hlen (by simp)
    | cons b l2 =>
      have hlen2 : l1.length = l2.length := by simpa using hlen
      have ha : digitCh a = true := h1 a (List.mem_cons_self a l1)
      have hb : digitCh b = true := h2 b (List.mem_cons_self b l2)
      have h1t : ∀ c ∈ l1, digitCh c = true :=
        fun c hc => h1 c (List.mem_cons_of_mem a hc)
      have h2t : ∀ c ∈ l2, digitCh c = true :=
        fun c hc => h2 c (List.mem_cons_of_mem b hc)
      rcases lt_trichotomy a b with hab | hab | hab
      · exact iff_of_true (List.Lex.rel hab)
          (digits_head_lt hlen2 h1t ha (char_lt_iff_toNat_lt.mp hab))
      · subst hab
        rw [List.Lex.cons_iff, ih hlen2 h1t h2t,
          digitsToNat_cons, digitsToNat_cons, hlen2, Nat.add_lt_add_iff_left]
      · refine iff_of_false (fun h => ?_) (fun h => ?_)
        · cases h with
          | cons h => exact absurd hab (lt_irrefl _)
          | rel h => exact absurd hab (not_lt_of_lt h)
        · exact absurd h (not_lt_of_lt
            (digits_head_lt hlen2.symm h2t hb (char_lt_iff_toNat_lt.mp hab)))

theorem digits_inj (l1 : List Char) : ∀ l2 : List Char, l1.length = l2.length →
    (∀ c ∈ l1, digitCh c = true) → (∀ c ∈ l2, digitCh c = true) →
    digitsToNat l1 = digitsToNat l2 → l1 = l2 := by
  induction l1 with
  | nil =>
    intro l2 hlen _ _ _
    cases l2 with
    | nil => rfl
    | cons b l2 => exact absurd hlen (by simp)
  | cons a l1 ih =>
    intro l2 hlen h1 h2 heq
    cases l2 with
    | nil => exact absurd hlen (by simp)
    | cons b l2 =>
      have hlen2 : l1.length = l2.length := by simpa using hlen
      have ha : digitCh a = true := h1 a (List.mem_cons_self a l1)
      have hb : digitCh b = true := h2 b (List.mem_cons_self b l2)
      have h1t : ∀ c ∈ l1, digitCh c = true :=
        fun c hc => h1 c (List.mem_cons_of_mem a hc)
      have h2t : ∀ c ∈ l2, digitCh c = true :=
        fun c hc => h2 c (List.mem_cons_of_mem b hc)
      rcases Nat.lt_trichotomy a.toNat b.toNat with hab | hab | hab
      · exact absurd heq (Nat.ne_of_lt (digits_head_lt hlen2 h1t ha hab))
      · have hD : digitsToNat l1 = digitsToNat l2 := by
          have heq2 := heq
          rw [digitsToNat_cons, digitsToNat_cons, hlen2, hab] at heq2
          omega
        rw [char_eq_of_toNat_eq hab, ih l2 hlen2 h1t h2t hD]
      · exact absurd heq (Nat.ne_of_gt (digits_head_lt hlen2.symm h2t hb hab))

theorem digits_eq_iff {l1 l2 : List Char} (hlen : l1.length = l2.length)
    (h1 : ∀ c ∈ l1, digitCh c = true) (h2 : ∀ c ∈ l2, digitCh c = true) :
    l1 = l2 ↔ digitsToNat l1 = digitsToNat l2 :=
  ⟨fun h => by rw [h], digits_inj l1 l2 hlen h1 h2⟩

theorem lex_append_iff {l1 l2 r1 r2 : List Char} (hlen : l1.length = l2.length) :
    List.Lex (· < ·) (l1 ++ r1) (l2 ++ r2)
      ↔ (List.Lex (· < ·) l1 l2 ∨ (l1 = l2 ∧ List.Lex (· < ·) r1 r2)) := by
  induction l1 generalizing l2 with
  | nil =>
    cases l2 with
    | nil =>
      simp only [List.nil_append, List.nil_eq, true_and]
      exact ⟨fun h => Or.inr h,
        fun h => h.elim (fun h2 => absurd h2 (List.Lex.not_nil_right _ _)) id⟩
    | cons b l2 => exact absurd hlen (by simp)
  | cons a l1 ih =>
    cases l2 with
    | nil => exact absurd hlen (by simp)
    | cons b l2 =>
      have hlen2 : l1.length = l2.length := by simpa using hlen
      rcases lt_trichotomy a b with hab | hab | hab
      · exact iff_of_true (List.Lex.rel hab) (Or.inl (List.Lex.rel hab))
      · subst hab
        simp only [List.cons_append, List.Lex.cons_iff, ih hlen2,
          List.cons.injEq, true_and]
      · refine iff_of_false (fun h => ?_) (fun h => ?_)
        · cases h with
          | cons h2 => exact absurd hab (lt_irrefl _)
          | rel h2 => exact absurd hab (not_lt_of_lt h2)
        · rcases h with h2 | ⟨heq, h2⟩
          · cases h2 with
            | cons h3 => exact absurd hab (lt_irrefl _)
            | rel h3 => exact absurd hab (not_lt_of_lt h3)
          · rw [List.cons.injEq] at heq
            exact absurd heq.1 (ne_of_gt hab)

theorem strLtB_go_iff_lex (l1 l2 : List Char) :
    strLtB.go l1 l2 = true ↔ List.Lex (· < ·) l1 l2 := by
  induction l1 generalizing l2 with
  | nil =>
    cases l2 with
    | nil =>
      exact iff_of_false (by simp [strLtB.go]) (List.Lex.not_nil_right _ _)
    | cons d ds => exact iff_of_true (by simp [strLtB.go]) List.Lex.nil
  | cons c cs ih =>
    cases l2 with
    | nil =>
      exact iff_of_false (by simp [strLtB.go]) (List.Lex.not_nil_right _ _)
    | cons d ds =>
      rcases lt_trichotomy c d with hcd | hcd | hcd
      · exact iff_of_true (by simp [strLtB.go, hcd]) (List.Lex.rel hcd)
      · subst hcd
        have hred : strLtB.go (c :: cs) (c :: ds) = strLtB.go cs ds := by
          simp [strLtB.go]
        rw [hred, List.Lex.cons_iff]
        exact ih ds
      · refine iff_of_false (by simp [strLtB.go, hcd, not_lt_of_lt hcd]) ?_
        intro h
        cases h with
        | cons h2 => exact absurd hcd (lt_irrefl _)
        | rel h2 => exact absurd hcd (not_lt_of_lt h2)

theorem string_lt_iff_lex (s t : String) :
    strLtB s t = true ↔ List.Lex (· < ·) s.data t.data := strLtB_go_iff_lex _ _

theorem date_string_lt_cutoff (y1 y2 y3 y4 m1 m2 z1 z2 z3 z4 w1 w2 : Char)
    (hd : ∀ c ∈ [y1, y2, y3, y4, m1, m2], digitCh c = true)
    (hz : ∀ c ∈ [z1, z2, z3, z4, w1, w2], digitCh c = true) :
    strLtB (String.mk [y1, y2, y3, y4, '-', m1, m2])
        (String.mk [z1, z2, z3, z4, '-', w1, w2]) = true
      ↔ (digitsToNat [y1, y2, y3, y4] < digitsToNat [z1, z2, z3, z4]
        ∨ (digitsToNat [y1, y2, y3, y4] = digitsToNat [z1, z2, z3, z4]
          ∧ digitsToNat [m1, m2] < digitsToNat [w1, w2])) := by
  have hdY : ∀ c ∈ [y1, y2, y3, y4], digitCh c = true := by
    intro c hc
    apply hd
    simp only [List.mem_cons, List.not_mem_nil, or_false] at hc ⊢
    tauto
  have hdM : ∀ c ∈ [m1, m2], digitCh c = true := by
    intro c hc
    apply hd
    simp only [List.mem_cons, List.not_mem_nil, or_false] at hc ⊢
    tauto
  have hzY : ∀ c ∈ [z1, z2, z3, z4], digitCh c = true := by
    intro c hc
    apply hz
    simp only [List.mem_cons, List.not_mem_nil, or_false] at hc ⊢
    tauto
  have hzM : ∀ c ∈ [w1, w2], digitCh c = true := by
    intro c hc
    apply hz
    simp only [List.mem_cons, List.not_mem_nil, or_false] at hc ⊢
    tauto
  rw [string_lt_iff_lex]
  show List.Lex (· < ·) ([y1, y2, y3, y4] ++ '-' :: [m1, m2])
    ([z1, z2, z3, z4] ++ '-' :: [w1, w2]) ↔ _
  rw [lex_append_iff (by simp), lex_digits_iff (by simp) hdY hzY,
    digits_eq_iff (by simp) hdY hzY, List.Lex.cons_iff,
    lex_digits_iff (by simp) hdM hzM]

/-- C2: `determine_period` is a total, deterministic, stable function of the
date string: for every well-formed `YYYY-MM` date (four digits, dash, two
digits), a date chronologically before 2020-01 yields "pre-2020", a date from
2020-01 up to but excluding 2022-04 yields "mid-period", and a date from
2022-04 onward yields "post-2022"; applying the classifier twice to the same
date gives the same result. -/
theorem c2_determine_period_eras (y1 y2 y3 y4 m1 m2 : Char)
    (hd : ∀ c ∈ [y1, y2, y3, y4, m1, m2], digitCh c = true) :
    (determine_period (String.mk [y1, y2, y3, y4, '-', m1, m2])
      = determine_period (String.mk [y1, y2, y3, y4, '-', m1, m2]))
    ∧ ((digitsToNat [y1, y2, y3, y4] < 2020
        ∨ (digitsToNat [y1, y2, y3, y4] = 2020 ∧ digitsToNat [m1, m2] < 1)) →
      determine_period (String.mk [y1, y2, y3, y4, '-', m1, m2]) = "pre-2020")
    ∧ ((¬(digitsToNat [y1, y2, y3, y4] < 2020
          ∨ (digitsToNat [y1, y2, y3, y4] = 2020 ∧ digitsToNat [m1, m2] < 1))
        ∧ (digitsToNat [y1, y2, y3, y4] < 2022
          ∨ (digitsToNat [y1, y2, y3, y4] = 2022 ∧ digitsToNat [m1, m2] < 4))) →
      determine_period (String.mk [y1, y2, y3, y4, '-', m1, m2]) = "mid-period")
    ∧ (¬(digitsToNat [y1, y2, y3, y4] < 2022
        ∨ (digitsToNat [y1, y2, y3, y4] = 2022 ∧ digitsToNat [m1, m2] < 4)) →
      determine_period (String.mk [y1, y2, y3, y4, '-', m1, m2])
        = "post-2022") := by
  have hcut1 : EXTRACTION_CUTOFF_DATE = String.mk ['2', '0', '2', '0', '-', '0', '1'] := rfl
  have hcut2 : SECOND_FORMAT_CUTOFF_DATE = String.mk ['2', '0', '2', '2', '-', '0', '4'] := rfl
  have k1 := date_string_lt_cutoff y1 y2 y3 y4 m1 m2 '2' '0' '2' '0' '0' '1' hd (by decide)
  have k2 := date_string_lt_cutoff y1 y2 y3 y4 m1 m2 '2' '0' '2' '2' '0' '4' hd (by decide)
  rw [show digitsToNat ['2', '0', '2', '0'] = 2020 from rfl,
    show digitsToNat ['0', '1'] = 1 from rfl] at k1
  rw [show digitsToNat ['2', '0', '2', '2'] = 2022 from rfl,
    show digitsToNat ['0', '4'] = 4 from rfl] at k2
  refine ⟨rfl, ?_, ?_, ?_⟩
  · intro h
    unfold determine_period
    rw [hcut1, if_pos (k1.mpr h)]
  · rintro ⟨h1, h2⟩
    unfold determine_period
    rw [hcut1, if_neg (fun hlt => h1 (k1.mp hlt)), hcut2, if_pos (k2.mpr h2)]
  · intro h
    unfold determine_period
    rw [hcut1, if_neg (fun hlt => h (by rcases k1.mp hlt with h3 | ⟨h3, h4⟩ <;> omega)),
      hcut2, if_neg (fun hlt => h (k2.mp hlt))]

/-- Witness for C2 at concrete dates: "2019-12" is classified pre-2020,
"2020-06" mid-period, and "2022-04" post-2022. -/
theorem c2_witness :
    determine_period "2019-12" = "pre-2020"
    ∧ determine_period "2020-06" = "mid-period"
    ∧ determine_period "2022-04" = "post-2022" := by
  refine ⟨?_, ?_, ?_⟩
  · exact (c2_determine_period_eras '2' '0' '1' '9' '1' '2' (by decide)).2.1
      (by decide)
  · exact (c2_determine_period_eras '2' '0' '2' '0' '0' '6' (by decide)).2.2.1
      (by decide)
  · exact (c2_determine_period_eras '2' '0' '2' '2' '0' '4' (by decide)).2.2.2
      (by decide)

/-! # DataFrame access lemmas -/

theorem find_name_eq {cols : List Col} {c : String} {col : Col}
    (h : cols.find? (fun cl => cl.name = c) = some col) : col.name = c := by
  have h2 := List.find?_some h
  simpa using h2

theorem getCol?_isSome_iff (df : DataFrame) (c : String) :
    (df.getCol? c).isSome = true ↔ c ∈ df.names := by
  unfold DataFrame.getCol? DataFrame.names
  rcases hf : df.cols.find? (fun cl => cl.name = c) with _ | col
  · rw [hf]
    simp only [Option.map_none', Option.isSome_none, Bool.false_eq_true, false_iff]
    intro hmem
    rcases List.mem_map.mp hmem with ⟨col, hcol, hname⟩
    have h2 := List.find?_eq_none.mp hf col hcol
    simp [hname] at h2
  · rw [hf]
    simp only [Option.map_some', Option.isSome_some, true_iff]
    exact List.mem_map.mpr ⟨col, List.mem_of_find?_eq_some hf, find_name_eq hf⟩

theorem replaceCol_find_self (c : String) (cs : List Cell) (cols : List Col) :
    (DataFrame.replaceCol c cs cols).find? (fun cl => cl.name = c)
      = some ⟨c, cs⟩ := by
  induction cols with
  | nil => simp [DataFrame.replaceCol, List.find?]
  | cons col rest ih =>
    by_cases h : col.name = c
    · simp [DataFrame.replaceCol, h, List.find?]
    · simp only [DataFrame.replaceCol, if_neg h]
      rw [List.find?_cons_of_neg _ (by simpa using h)]
      exact ih

theorem replaceCol_find_ne (c : String) (cs : List Cell) {d : String}
    (hne : d ≠ c) (cols : List Col) :
    (DataFrame.replaceCol c cs cols).find? (fun cl => cl.name = d)
      = cols.find? (fun cl => cl.name = d) := by
  have hcd : ¬(c = d) := fun h => hne h.symm
  induction cols with
  | nil =>
    simp [DataFrame.replaceCol, List.find?, hcd]
  | cons col rest ih =>
    by_cases h : col.name = c
    · simp only [DataFrame.replaceCol, if_pos h]
      rw [List.find?_cons_of_neg _ (by simpa using hcd),
        List.find?_cons_of_neg _ (by simp [h, hcd])]
    · simp only [DataFrame.replaceCol, if_neg h]
      by_cases hd : col.name = d
      · rw [List.find?_cons_of_pos _ (by simpa using hd),
          List.find?_cons_of_pos _ (by simpa using hd)]
      · rw [List.find?_cons_of_neg _ (by simpa using hd),
          List.find?_cons_of_neg _ (by simpa using hd)]
        exact ih

theorem getCol?_setCol_self (df : DataFrame) (c : String) (cs : List Cell) :
    (df.setCol c cs).getCol? c = some cs := by
  unfold DataFrame.setCol DataFrame.getCol?
  rw [replaceCol_find_self]
  rfl

theorem getCol?_setCol_ne (df : DataFrame) {c d : String} (cs : List Cell)
    (hne : d ≠ c) : (df.setCol c cs).getCol? d = df.getCol? d := by
  unfold DataFrame.setCol DataFrame.getCol?
  rw [replaceCol_find_ne c cs hne]

theorem replaceCol_eq_self {c : String} {cs : List Cell} {cols : List Col}
    (h : cols.find? (fun cl => cl.name = c) = some ⟨c, cs⟩) :
    DataFrame.replaceCol c cs cols = cols := by
  induction cols with
  | nil => exact Option.noConfusion h
  | cons col rest ih =>
    by_cases hc : col.name = c
    · rw [List.find?_cons_of_pos _ (by simpa using hc)] at h
      simp only [DataFrame.replaceCol, if_pos hc]
      rw [Option.some_inj.mp h]
    · rw [List.find?_cons_of_neg _ (by simpa using hc)] at h
      simp only [DataFrame.replaceCol, if_neg hc]
      rw [ih h]

theorem setCol_eq_self {df : DataFrame} {c : String} {cs : List Cell}
    (h : df.getCol? c = some cs) : df.setCol c cs = df := by
  unfold DataFrame.getCol? at h
  rcases hf : df.cols.find? (fun cl => cl.name = c) with _ | col
  · rw [hf] at h; simp at h
  · rw [hf] at h
    simp only [Option.map_some', Option.some_inj] at h
    have hname := find_name_eq hf
    have hcol : col = ⟨c, cs⟩ := by
      cases col
      simp_all
    rw [hcol] at hf
    unfold DataFrame.setCol
    rw [replaceCol_eq_self hf]

theorem names_replaceCol_mem {c : String} (cs : List Cell) {cols : List Col}
    (h : c ∈ cols.map (·.name)) :
    (DataFrame.replaceCol c cs cols).map (·.name) = cols.map (·.name) := by
  induction cols with
  | nil => simp at h
  | cons col rest ih =>
    by_cases hc : col.name = c
    · simp [DataFrame.replaceCol, hc]
    · simp only [List.map_cons, List.mem_cons] at h
      rcases h with h | h
      · exact absurd h.symm hc
      · simp only [DataFrame.replaceCol, if_neg hc, List.map_cons]
        rw [ih h]

theorem names_replaceCol_not_mem {c : String} (cs : List Cell) {cols : List Col}
    (h : c ∉ cols.map (·.name)) :
    (DataFrame.replaceCol c cs cols).map (·.name) = cols.map (·.name) ++ [c] := by
  induction cols with
  | nil => simp [DataFrame.replaceCol]
  | cons col rest ih =>
    simp only [List.map_cons, List.mem_cons] at h
    push_neg at h
    have hcne : ¬ col.name = c := fun h2 => h.1 h2.symm
    simp only [DataFrame.replaceCol, if_neg hcne, List.map_cons]
    rw [ih h.2]
    simp

theorem names_setCol_mem {df : DataFrame} {c : String} (cs : List Cell)
    (h : c ∈ df.names) : (df.setCol c cs).names = df.names :=
  names_replaceCol_mem cs h

theorem names_setCol_not_mem {df : DataFrame} {c : String} (cs : List Cell)
    (h : c ∉ df.names) : (df.setCol c cs).names = df.names ++ [c] :=
  names_replaceCol_not_mem cs h

theorem getCol?_select (df : DataFrame) (ns : List String) (c : String) :
    (df.select ns).getCol? c = if c ∈ ns then df.getCol? c else none := by
  induction ns with
  | nil => rfl
  | cons n rest ih =>
    by_cases hc : c = n
    · subst hc
      rcases hf : df.cols.find? (fun cl => cl.name = c) with _ | col
      · have hnone : df.getCol? c = none := by
          unfold DataFrame.getCol?
          rw [hf]
          rfl
        have hsel : df.select (c :: rest) = df.select rest := by
          simp [DataFrame.select, List.filterMap_cons, hf]
        rw [hsel, ih, hnone]
        by_cases hcr : c ∈ rest
        · simp [hcr]
        · simp [hcr]
      · have hname := find_name_eq hf
        have hsome : df.getCol? c = some col.cells := by
          unfold DataFrame.getCol?
          rw [hf]
          rfl
        have hsel : (df.select (c :: rest)).cols = col :: (df.select rest).cols := by
          simp [DataFrame.select, List.filterMap_cons, hf]
        have hgc : (df.select (c :: rest)).getCol? c = some col.cells := by
          unfold DataFrame.getCol?
          rw [hsel, List.find?_cons_of_pos _ (by simpa using hname)]
          rfl
        rw [hgc, hsome]
        simp
    · have hstep : (df.select (n :: rest)).getCol? c = (df.select rest).getCol? c := by
        rcases hf : df.cols.find? (fun cl => cl.name = n) with _ | col
        · have hsel : df.select (n :: rest) = df.select rest := by
            simp [DataFrame.select, List.filterMap_cons, hf]
          rw [hsel]
        · have hname := find_name_eq hf
          have hsel : (df.select (n :: rest)).cols = col :: (df.select rest).cols := by
            simp [DataFrame.select, List.filterMap_cons, hf]
          unfold DataFrame.getCol?
          rw [hsel, List.find?_cons_of_neg _
            (by simp [hname]; exact fun h => hc h.symm)]
      rw [hstep, ih]
      simp [List.mem_cons, hc]

theorem names_select (df : DataFrame) (ns : List String) :
    (df.select ns).names = ns.filter (fun n => (df.getCol? n).isSome) := by
  induction ns with
  | nil => simp [DataFrame.select, DataFrame.names]
  | cons n rest ih =>
    rcases hf : df.cols.find? (fun cl => cl.name = n) with _ | col
    · have hnone : df.getCol? n = none := by
        unfold DataFrame.getCol?
        rw [hf]
        rfl
      have hsel : df.select (n :: rest) = df.select rest := by
        simp [DataFrame.select, List.filterMap_cons, hf]
      rw [hsel, ih, List.filter_cons_of_neg (by simp [hnone])]
    · have hsome : df.getCol? n = some col.cells := by
        unfold DataFrame.getCol?
        rw [hf]
        rfl
      have hname := find_name_eq hf
      have hsel : (df.select (n :: rest)).cols = col :: (df.select rest).cols := by
        simp [DataFrame.select, List.filterMap_cons, hf]
      have hnames : (df.select (n :: rest)).names
          = col.name :: (df.select rest).names := by
        unfold DataFrame.names
        rw [hsel, List.map_cons]
      rw [hnames, ih, List.filter_cons_of_pos (by simp [hsome]), hname]

/-! # Claim C8 -/

theorem getCol?_head {df : DataFrame} {c0 : Col} {tail : List Col}
    (h : df.cols = c0 :: tail) : df.getCol? c0.name = some c0.cells := by
  unfold DataFrame.getCol?
  rw [h, List.find?_cons_of_pos _ (by simp)]
  rfl

theorem empty_false_of_cols {df : DataFrame} {c0 : Col} {tail : List Col}
    (hcols : df.cols = c0 :: tail) (hnr : c0.cells ≠ []) :
    df.empty = false := by
  unfold DataFrame.empty DataFrame.nrows
  rw [hcols]
  simp [List.isEmpty, List.length_eq_zero, hnr]

theorem add_hierarchy_spec {df : DataFrame} {c0 : Col} {tail : List Col}
    (hcols : df.cols = c0 :: tail) (hnr : c0.cells ≠ [])
    (hpr : c0.name ≠ "parent_region") :
    (add_hierarchy_columns df).getCol? "parent_region"
        = some (c0.cells.map parentCellFn)
    ∧ (add_hierarchy_columns df).getCol? "region_type"
        = some (c0.cells.map typeCellFn) := by
  have hemp := empty_false_of_cols hcols hnr
  unfold add_hierarchy_columns
  rw [if_neg (by simp [hemp]), hcols]
  simp only
  have hget : df.getCol? c0.name = some c0.cells := getCol?_head hcols
  rw [hget]
  simp only [Option.getD_some]
  have hd1 : (df.setCol "parent_region" (c0.cells.map parentCellFn)).getCol? c0.name
      = some c0.cells := by
    rw [getCol?_setCol_ne _ _ hpr, hget]
  rw [hd1]
  simp only [Option.getD_some]
  constructor
  · rw [getCol?_setCol_ne _ _ (by decide), getCol?_setCol_self]
  · rw [getCol?_setCol_self]

theorem parentGet_mem {v p : String} {children : List String}
    (hmem : (p, children) ∈ REGION_HIERARCHY) (hv : v ∈ children) :
    parentGet v = p := by
  have hall : ∀ pr ∈ REGION_HIERARCHY, ∀ w ∈ pr.2, parentGet w = pr.1 := by decide
  exact hall (p, children) hmem v hv

theorem parentGet_none {v : String} (h : ∀ p ∈ REGION_HIERARCHY, v ∉ p.2) :
    parentGet v = "None" := by
  unfold parentGet
  rw [List.find?_eq_none.mpr
    (fun x hx => by simpa using h x (List.mem_reverse.mp hx))]
  rfl

/-- Counterexample to C8 as stated: when the region (first) column is itself
named `parent_region`, the first assignment of `add_hierarchy_columns`
overwrites the region cells with their parents before `region_type` is
computed, so the row with region cell "Halton Region" (a hierarchy key other
than the top-level total, which the claim says must be typed "Region") is
typed "Total". -/
theorem c8_counterexample :
    (add_hierarchy_columns ⟨[⟨"parent_region", [Cell.s "Halton Region"]⟩]⟩).getCol?
        "region_type" = some [Cell.s "Total"]
    ∧ "Halton Region" ∈ hierKeys ∧ "Halton Region" ≠ "TRREB Total" := by
  refine ⟨?_, by decide, by decide⟩
  rfl

/-- C8 (amended: provided the region (first) column is not itself named
`parent_region`): for every row, `add_hierarchy_columns` sets `region_type`
to "Total" iff the region cell is the string "TRREB Total", to "Region" iff
it is a key of the region hierarchy other than the top-level total, and to
"Municipality" otherwise; it sets `parent_region` to the hierarchy parent
when the region is some parent's child, and to the string "None" for regions
that are nobody's child (including the top-level total) and for null or
numeric region cells. -/
theorem c8_hierarchy_derivation (df : DataFrame) (c0 : Col) (tail : List Col)
    (i : Nat) (cl : Cell) (hcols : df.cols = c0 :: tail)
    (hpr : c0.name ≠ "parent_region") (hcell : c0.cells.get? i = some cl) :
    (∃ pr, (add_hierarchy_columns df).getCol? "parent_region" = some pr
      ∧ pr.get? i = some (parentCellFn cl))
    ∧ (∃ rt, (add_hierarchy_columns df).getCol? "region_type" = some rt
      ∧ rt.get? i = some (typeCellFn cl))
    ∧ (typeCellFn cl = .s "Total" ↔ cl = .s "TRREB Total")
    ∧ (typeCellFn cl = .s "Region"
      ↔ ∃ v, cl = .s v ∧ v ∈ hierKeys ∧ v ≠ "TRREB Total")
    ∧ (typeCellFn cl = .s "Total" ∨ typeCellFn cl = .s "Region"
      ∨ typeCellFn cl = .s "Municipality")
    ∧ (∀ v p children, cl = .s v → (p, children) ∈ REGION_HIERARCHY →
        v ∈ children → parentCellFn cl = .s p)
    ∧ (∀ v, cl = .s v → (∀ p ∈ REGION_HIERARCHY, v ∉ p.2) →
        parentCellFn cl = .s "None")
    ∧ ((∀ v, cl ≠ .s v) →
        parentCellFn cl = .s "None" ∧ typeCellFn cl = .s "Municipality") := by
  have hnr : c0.cells ≠ [] := by
    intro h
    rw [h] at hcell
    exact Option.noConfusion hcell
  obtain ⟨hp, ht⟩ := add_hierarchy_spec hcols hnr hpr
  refine ⟨⟨_, hp, ?_⟩, ⟨_, ht, ?_⟩, ?_, ?_, ?_, ?_, ?_, ?_⟩
  · rw [List.get?_map, hcell]
    rfl
  · rw [List.get?_map, hcell]
    rfl
  · cases cl with
    | s v =>
      simp only [typeCellFn]
      by_cases hv : v = "TRREB Total"
      · simp [hv]
      · rw [if_neg hv]
        by_cases hk : v ∈ hierKeys
        · rw [if_pos hk]
          constructor
          · intro h
            exact absurd (Cell.s.inj h) (by decide)
          · intro h
            exact absurd (Cell.s.inj h) hv
        · rw [if_neg hk]
          constructor
          · intro h
            exact absurd (Cell.s.inj h) (by decide)
          · intro h
            exact absurd (Cell.s.inj h) hv
    | n v =>
      constructor
      · intro h
        exact absurd (Cell.s.inj h) (by decide)
      · intro h
        exact Cell.noConfusion h
    | null =>
      constructor
      · intro h
        exact absurd (Cell.s.inj h) (by decide)
      · intro h
        exact Cell.noConfusion h
  · cases cl with
    | s v =>
      simp only [typeCellFn]
      by_cases hv : v = "TRREB Total"
      · rw [if_pos hv]
        constructor
        · intro h
          exact absurd (Cell.s.inj h) (by decide)
        · rintro ⟨w, hw, hk, hne⟩
          exact absurd (hv ▸ Cell.s.inj hw).symm hne
      · rw [if_neg hv]
        by_cases hk : v ∈ hierKeys
        · rw [if_pos hk]
          exact iff_of_true rfl ⟨v, rfl, hk, hv⟩
        · rw [if_neg hk]
          constructor
          · intro h
            exact absurd (Cell.s.inj h) (by decide)
          · rintro ⟨w, hw, hwk, hne⟩
            exact absurd ((Cell.s.inj hw) ▸ hwk) hk
    | n v =>
      constructor
      · intro h
        exact absurd (Cell.s.inj h) (by decide)
      · rintro ⟨w, hw, _, _⟩
        exact Cell.noConfusion hw
    | null =>
      constructor
      · intro h
        exact absurd (Cell.s.inj h) (by decide)
      · rintro ⟨w, hw, _, _⟩
        exact Cell.noConfusion hw
  · cases cl with
    | s v =>
      simp only [typeCellFn]
      by_cases hv : v = "TRREB Total"
      · rw [if_pos hv]
        exact Or.inl rfl
      · rw [if_neg hv]
        by_cases hk : v ∈ hierKeys
        · rw [if_pos hk]
          exact Or.inr (Or.inl rfl)
        · rw [if_neg hk]
          exact Or.inr (Or.inr rfl)
    | n v => exact Or.inr (Or.inr rfl)
    | null => exact Or.inr (Or.inr rfl)
  · rintro v p children rfl hmem hv
    simp only [parentCellFn]
    rw [parentGet_mem hmem hv]
  · rintro v rfl hnone
    simp only [parentCellFn]
    rw [parentGet_none hnone]
  · intro hns
    cases cl with
    | s v => exact absurd rfl (hns v)
    | n v => exact ⟨rfl, rfl⟩
    | null => exact ⟨rfl, rfl⟩

/-- Witness for C8 (amended) at a concrete table: the row "Oakville" gets
parent "Halton Region" and type "Municipality". -/
theorem c8_witness :
    (∃ pr, (add_hierarchy_columns ⟨[⟨"Region", [Cell.s "Oakville"]⟩]⟩).getCol?
        "parent_region" = some pr
      ∧ pr.get? 0 = some (parentCellFn (Cell.s "Oakville")))
    ∧ parentCellFn (Cell.s "Oakville") = Cell.s "Halton Region"
    ∧ typeCellFn (Cell.s "Oakville") = Cell.s "Municipality" := by
  refine ⟨(c8_hierarchy_derivation ⟨[⟨"Region", [Cell.s "Oakville"]⟩]⟩
    ⟨"Region", [Cell.s "Oakville"]⟩ [] 0 (Cell.s "Oakville") rfl
    (by decide) rfl).1, by decide, by decide⟩

/-! # Claims C4 and C5: convert_numeric_columns -/

theorem convertStep_getCol (f : List Cell → List Cell) (d : DataFrame)
    (a c : String) :
    (convertStep f d a).getCol? c =
      if c = a then (d.getCol? a).map f else d.getCol? c := by
  unfold convertStep
  rcases hf : d.getCol? a with _ | cs
  · simp only [hf]
    by_cases hc : c = a
    · subst hc
      simp [hf]
    · simp [hc]
  · simp only [hf]
    by_cases hc : c = a
    · subst hc
      simp [getCol?_setCol_self]
    · rw [if_neg hc, getCol?_setCol_ne _ _ hc]

theorem foldl_convertStep_getCol (f : List Cell → List Cell)
    (cols : List String) (hnd : cols.Nodup) (d : DataFrame) (c : String) :
    (cols.foldl (convertStep f) d).getCol? c =
      if c ∈ cols then (d.getCol? c).map f else d.getCol? c := by
  induction cols generalizing d with
  | nil => simp
  | cons a rest ih =>
    have hnd2 : rest.Nodup := (List.nodup_cons.mp hnd).2
    have ha : a ∉ rest := (List.nodup_cons.mp hnd).1
    rw [List.foldl_cons, ih hnd2]
    by_cases hc : c ∈ rest
    · have hca : c ≠ a := fun h => ha (h ▸ hc)
      rw [if_pos hc, if_pos (List.mem_cons_of_mem a hc), convertStep_getCol,
        if_neg hca]
    · by_cases hca : c = a
      · subst hca
        rw [if_neg hc, if_pos (List.mem_cons_self c rest), convertStep_getCol,
          if_pos rfl]
      · rw [if_neg hc, if_neg (by simp [hca, hc]), convertStep_getCol,
          if_neg hca]

theorem foldl_convertStep_names (f : List Cell → List Cell)
    (cols : List String) (d : DataFrame) :
    (cols.foldl (convertStep f) d).names = d.names := by
  induction cols generalizing d with
  | nil => rfl
  | cons a rest ih =>
    rw [List.foldl_cons, ih]
    unfold convertStep
    rcases hf : d.getCol? a with _ | cs
    · simp only [hf]
    · simp only [hf]
      exact names_setCol_mem _ ((getCol?_isSome_iff d a).mp (by simp [hf]))

theorem price_not_elsewhere {c : String} (h : c ∈ price_cols) :
    c ∉ count_cols ∧ c ∉ percentage_cols ∧ c ∉ decimal_cols := by
  fin_cases h <;> exact ⟨by decide, by decide, by decide⟩

theorem count_not_elsewhere {c : String} (h : c ∈ count_cols) :
    c ∉ price_cols ∧ c ∉ percentage_cols ∧ c ∉ decimal_cols := by
  fin_cases h <;> exact ⟨by decide, by decide, by decide⟩

theorem pct_not_elsewhere {c : String} (h : c ∈ percentage_cols) :
    c ∉ price_cols ∧ c ∉ count_cols ∧ c ∉ decimal_cols := by
  fin_cases h <;> exact ⟨by decide, by decide, by decide⟩

theorem decimal_not_elsewhere {c : String} (h : c ∈ decimal_cols) :
    c ∉ price_cols ∧ c ∉ count_cols ∧ c ∉ percentage_cols := by
  fin_cases h <;> exact ⟨by decide, by decide, by decide⟩

theorem convert_getCol (df : DataFrame) (hemp : df.empty = false) (c : String) :
    (convert_numeric_columns df).getCol? c =
      if c ∈ price_cols then (df.getCol? c).map priceColFn
      else if c ∈ count_cols then (df.getCol? c).map countColFn
      else if c ∈ percentage_cols then (df.getCol? c).map pctColFn
      else if c ∈ decimal_cols then (df.getCol? c).map decimalColFn
      else df.getCol? c := by
  unfold convert_numeric_columns
  rw [if_neg (by simp [hemp])]
  by_cases h1 : c ∈ price_cols
  · obtain ⟨hn2, hn3, hn4⟩ := price_not_elsewhere h1
    rw [foldl_convertStep_getCol _ decimal_cols (by decide), if_neg hn4,
      foldl_convertStep_getCol _ percentage_cols (by decide), if_neg hn3,
      foldl_convertStep_getCol _ count_cols (by decide), if_neg hn2,
      foldl_convertStep_getCol _ price_cols (by decide), if_pos h1, if_pos h1]
  · by_cases h2 : c ∈ count_cols
    · obtain ⟨hn1, hn3, hn4⟩ := count_not_elsewhere h2
      rw [foldl_convertStep_getCol _ decimal_cols (by decide), if_neg hn4,
        foldl_convertStep_getCol _ percentage_cols (by decide), if_neg hn3,
        foldl_convertStep_getCol _ count_cols (by decide), if_pos h2,
        foldl_convertStep_getCol _ price_cols (by decide), if_neg h1,
        if_neg h1, if_pos h2]
    · by_cases h3 : c ∈ percentage_cols
      · obtain ⟨hn1, hn2, hn4⟩ := pct_not_elsewhere h3
        rw [foldl_convertStep_getCol _ decimal_cols (by decide), if_neg hn4,
          foldl_convertStep_getCol _ percentage_cols (by decide), if_pos h3,
          foldl_convertStep_getCol _ count_cols (by decide), if_neg h2,
          foldl_convertStep_getCol _ price_cols (by decide), if_neg h1,
          if_neg h1, if_neg h2, if_pos h3]
      · by_cases h4 : c ∈ decimal_cols
        · rw [foldl_convertStep_getCol _ decimal_cols (by decide), if_pos h4,
            foldl_convertStep_getCol _ percentage_cols (by decide), if_neg h3,
            foldl_convertStep_getCol _ count_cols (by decide), if_neg h2,
            foldl_convertStep_getCol _ price_cols (by decide), if_neg h1,
            if_neg h1, if_neg h2, if_neg h3, if_pos h4]
        · rw [foldl_convertStep_getCol _ decimal_cols (by decide), if_neg h4,
            foldl_convertStep_getCol _ percentage_cols (by decide), if_neg h3,
            foldl_convertStep_getCol _ count_cols (by decide), if_neg h2,
            foldl_convertStep_getCol _ price_cols (by decide), if_neg h1,
            if_neg h1, if_neg h2, if_neg h3, if_neg h4]

/-- C4: Cell typing.  On an object (string-bearing) column: a Money cell has
`$` and `,` stripped before numeric coercion; a Count cell has `,` stripped;
a Ratio cell has `%` stripped and the result divided by 100 (so the stored
ratio is a fraction).  In particular "$1,234,567" in a Money column coerces
to 1234567 and "58.5%" in a Ratio column coerces to 0.585 (see the
witness). -/
theorem c4_cell_typing :
    (∀ (df : DataFrame) (c : String) (cs : List Cell) (i : Nat) (t : String)
      (v : Q), df.empty = false → c ∈ price_cols → df.getCol? c = some cs →
      hasStringCell cs = true → cs.get? i = some (.s t) →
      toNumeric? (removeAll ',' (removeAll '$' t)) = some v →
      ∃ ds, (convert_numeric_columns df).getCol? c = some ds
        ∧ ds.get? i = some (.n v))
    ∧ (∀ (df : DataFrame) (c : String) (cs : List Cell) (i : Nat) (t : String)
      (v : Q), df.empty = false → c ∈ count_cols → df.getCol? c = some cs →
      hasStringCell cs = true → cs.get? i = some (.s t) →
      toNumeric? (removeAll ',' t) = some v →
      ∃ ds, (convert_numeric_columns df).getCol? c = some ds
        ∧ ds.get? i = some (.n v))
    ∧ (∀ (df : DataFrame) (c : String) (cs : List Cell) (i : Nat) (t : String)
      (v : Q), df.empty = false → c ∈ percentage_cols →
      df.getCol? c = some cs →
      hasStringCell cs = true → cs.get? i = some (.s t) →
      toNumeric? (removeAll '%' t) = some v →
      ∃ ds, (convert_numeric_columns df).getCol? c = some ds
        ∧ ds.get? i = some (.n (v.divNat 100))) := by
  refine ⟨?_, ?_, ?_⟩
  · intro df c cs i t v hemp hmem hcol hobj hcell hparse
    rw [convert_getCol df hemp c, if_pos hmem, hcol]
    refine ⟨priceColFn cs, rfl, ?_⟩
    unfold priceColFn
    rw [if_pos hobj, List.get?_map, hcell]
    simp only [Option.map_some', coerceMoney, hparse]
  · intro df c cs i t v hemp hmem hcol hobj hcell hparse
    obtain ⟨hn1, _, _⟩ := count_not_elsewhere hmem
    rw [convert_getCol df hemp c, if_neg hn1, if_pos hmem, hcol]
    refine ⟨countColFn cs, rfl, ?_⟩
    unfold countColFn
    rw [if_pos hobj, List.get?_map, hcell]
    simp only [Option.map_some', coerceCount, hparse]
  · intro df c cs i t v hemp hmem hcol hobj hcell hparse
    obtain ⟨hn1, hn2, _⟩ := pct_not_elsewhere hmem
    rw [convert_getCol df hemp c, if_neg hn1, if_neg hn2, if_pos hmem, hcol]
    refine ⟨pctColFn cs, rfl, ?_⟩
    unfold pctColFn
    rw [if_pos hobj, List.get?_map, hcell]
    simp only [Option.map_some', coercePct, hparse]

/-- Witness for C4 at a concrete table: "$1,234,567" in the Money column
"Average Price" coerces to 1234567, "1,234" in the Count column "Sales"
coerces to 1234, and "58.5%" in the Ratio column "SNLR Trend" coerces to
58.5 / 100 = 0.585. -/
theorem c4_witness :
    (∃ ds, (convert_numeric_columns ⟨[⟨"Region", [Cell.s "TRREB Total"]⟩,
        ⟨"Average Price", [Cell.s "$1,234,567"]⟩,
        ⟨"Sales", [Cell.s "1,234"]⟩,
        ⟨"SNLR Trend", [Cell.s "58.5%"]⟩]⟩).getCol? "Average Price" = some ds
      ∧ ds.get? 0 = some (Cell.n ⟨1234567, 1⟩))
    ∧ (∃ ds, (convert_numeric_columns ⟨[⟨"Region", [Cell.s "TRREB Total"]⟩,
        ⟨"Average Price", [Cell.s "$1,234,567"]⟩,
        ⟨"Sales", [Cell.s "1,234"]⟩,
        ⟨"SNLR Trend", [Cell.s "58.5%"]⟩]⟩).getCol? "Sales" = some ds
      ∧ ds.get? 0 = some (Cell.n ⟨1234, 1⟩))
    ∧ (∃ ds, (convert_numeric_columns ⟨[⟨"Region", [Cell.s "TRREB Total"]⟩,
        ⟨"Average Price", [Cell.s "$1,234,567"]⟩,
        ⟨"Sales", [Cell.s "1,234"]⟩,
        ⟨"SNLR Trend", [Cell.s "58.5%"]⟩]⟩).getCol? "SNLR Trend" = some ds
      ∧ ds.get? 0 = some (Cell.n (Q.divNat ⟨117, 2⟩ 100)))
    ∧ Q.divNat ⟨117, 2⟩ 100 = ⟨117, 200⟩ := by
  refine ⟨?_, ?_, ?_, by decide⟩
  · exact c4_cell_typing.1 _ "Average Price" [Cell.s "$1,234,567"] 0
      "$1,234,567" ⟨1234567, 1⟩ rfl (by decide) rfl rfl rfl (by decide)
  · exact c4_cell_typing.2.1 _ "Sales" [Cell.s "1,234"] 0
      "1,234" ⟨1234, 1⟩ rfl (by decide) rfl rfl rfl (by decide)
  · exact c4_cell_typing.2.2 _ "SNLR Trend" [Cell.s "58.5%"] 0
      "58.5%" ⟨117, 2⟩ rfl (by decide) rfl rfl rfl (by decide)

/-- C5: A cell whose text cannot be coerced to its declared numeric type
becomes null, and only that cell: on an object column of any typed group the
output column is the cell-wise coercion of the input column, so every other
cell's result depends only on its own value, and the function is total (the
embedding returns a table for every input, as the source catches every
conversion error). -/
theorem c5_coercion_failure_localized (df : DataFrame) (c : String)
    (cs : List Cell) (i : Nat) (t : String) (hemp : df.empty = false)
    (hmem : c ∈ price_cols ++ count_cols ++ percentage_cols ++ decimal_cols)
    (hcol : df.getCol? c = some cs) (hobj : hasStringCell cs = true)
    (hcell : cs.get? i = some (.s t))
    (hfail : toNumeric? (cleanFor c t) = none) :
    (convert_numeric_columns df).getCol? c = some (cs.map (coerceFor c))
    ∧ (cs.map (coerceFor c)).get? i = some .null
    ∧ (∀ j, (cs.map (coerceFor c)).get? j = (cs.get? j).map (coerceFor c)) := by
  simp only [List.mem_append] at hmem
  have hmain : (convert_numeric_columns df).getCol? c = some (cs.map (coerceFor c))
      ∧ coerceFor c (.s t) = .null := by
    rcases hmem with ((h1 | h2) | h3) | h4
    · obtain ⟨hn2, hn3, hn4⟩ := price_not_elsewhere h1
      unfold cleanFor at hfail
      rw [if_pos h1] at hfail
      rw [convert_getCol df hemp c, if_pos h1, hcol]
      simp only [Option.map_some']
      unfold coerceFor
      rw [if_pos h1]
      refine ⟨?_, ?_⟩
      · unfold priceColFn
        rw [if_pos hobj]
      · simp only [coerceMoney, hfail]
    · obtain ⟨hn1, hn3, hn4⟩ := count_not_elsewhere h2
      unfold cleanFor at hfail
      rw [if_neg hn1, if_pos h2] at hfail
      rw [convert_getCol df hemp c, if_neg hn1, if_pos h2, hcol]
      simp only [Option.map_some']
      unfold coerceFor
      rw [if_neg hn1, if_pos h2]
      refine ⟨?_, ?_⟩
      · unfold countColFn
        rw [if_pos hobj]
      · simp only [coerceCount, hfail]
    · obtain ⟨hn1, hn2, hn4⟩ := pct_not_elsewhere h3
      unfold cleanFor at hfail
      rw [if_neg hn1, if_neg hn2, if_pos h3] at hfail
      rw [convert_getCol df hemp c, if_neg hn1, if_neg hn2, if_pos h3, hcol]
      simp only [Option.map_some']
      unfold coerceFor
      rw [if_neg hn1, if_neg hn2, if_pos h3]
      refine ⟨?_, ?_⟩
      · unfold pctColFn
        rw [if_pos hobj]
      · simp only [coercePct, hfail]
    · obtain ⟨hn1, hn2, hn3⟩ := decimal_not_elsewhere h4
      unfold cleanFor at hfail
      rw [if_neg hn1, if_neg hn2, if_neg hn3] at hfail
      rw [convert_getCol df hemp c, if_neg hn1, if_neg hn2, if_neg hn3,
        if_pos h4, hcol]
      simp only [Option.map_some']
      unfold coerceFor
      rw [if_neg hn1, if_neg hn2, if_neg hn3]
      refine ⟨?_, ?_⟩
      · unfold decimalColFn
        rw [if_pos hobj]
      · simp only [coerceDecimal, hfail]
  refine ⟨hmain.1, ?_, fun j => (List.get?_map _ _ _)⟩
  rw [List.get?_map, hcell]
  simp only [Option.map_some', hmain.2]

/-- Witness for C5 at a concrete table: in the Count column ["abc", "5"],
the uncoercible cell "abc" becomes null while its neighbour "5" coerces to
5. -/
theorem c5_witness :
    (convert_numeric_columns
        ⟨[⟨"Region", [Cell.s "TRREB Total", Cell.s "Oakville"]⟩,
          ⟨"Sales", [Cell.s "abc", Cell.s "5"]⟩]⟩).getCol? "Sales"
      = some ([Cell.s "abc", Cell.s "5"].map (coerceFor "Sales"))
    ∧ ([Cell.s "abc", Cell.s "5"].map (coerceFor "Sales")).get? 0
      = some Cell.null
    ∧ ([Cell.s "abc", Cell.s "5"].map (coerceFor "Sales")).get? 1
      = some (Cell.n ⟨5, 1⟩) := by
  have h := c5_coercion_failure_localized
    ⟨[⟨"Region", [Cell.s "TRREB Total", Cell.s "Oakville"]⟩,
      ⟨"Sales", [Cell.s "abc", Cell.s "5"]⟩]⟩ "Sales"
    [Cell.s "abc", Cell.s "5"] 0 "abc" rfl (by decide) rfl rfl rfl (by decide)
  exact ⟨h.1, h.2.1, by decide⟩

/-! # Claim C1: ensure_column_consistency -/

theorem addMissing_cons (df : DataFrame) (e : String) (rest : List String) :
    addMissing df (e :: rest)
      = addMissing
          (if (df.getCol? e).isSome then df
            else df.setCol e (List.replicate df.nrows .null)) rest := rfl

theorem replaceCol_ne_nil (c : String) (cs : List Cell) (cols : List Col) :
    DataFrame.replaceCol c cs cols ≠ [] := by
  cases cols with
  | nil => simp [DataFrame.replaceCol]
  | cons col rest =>
    unfold DataFrame.replaceCol
    split <;> simp

theorem setCol_cols_head {df : DataFrame} {c0 : Col} {tail : List Col}
    (hcols : df.cols = c0 :: tail) {c : String} (hne : c0.name ≠ c)
    (cs : List Cell) :
    (df.setCol c cs).cols = c0 :: DataFrame.replaceCol c cs tail := by
  unfold DataFrame.setCol
  rw [hcols]
  have hstep : DataFrame.replaceCol c cs (c0 :: tail)
      = if c0.name = c then ⟨c, cs⟩ :: tail
        else c0 :: DataFrame.replaceCol c cs tail := rfl
  rw [hstep, if_neg hne]

theorem addMissing_cols_head (expected : List String) :
    ∀ (df : DataFrame) (c0 : Col) (tail : List Col), df.cols = c0 :: tail →
    ∃ tail2, (addMissing df expected).cols = c0 :: tail2 := by
  induction expected with
  | nil => intro df c0 tail h; exact ⟨tail, h⟩
  | cons e rest ih =>
    intro df c0 tail h
    rw [addMissing_cons]
    by_cases hs : (df.getCol? e).isSome
    · rw [if_pos hs]
      exact ih df c0 tail h
    · rw [if_neg hs]
      have hname : c0.name ≠ e := by
        intro heq
        exact hs ((getCol?_isSome_iff df e).mpr
          (by rw [DataFrame.names, h, List.map_cons, heq]; exact List.mem_cons_self _ _))
      exact ih _ c0 _ (setCol_cols_head h hname _)

theorem nrows_of_cols_head {df : DataFrame} {c0 : Col} {tail : List Col}
    (h : df.cols = c0 :: tail) : df.nrows = c0.cells.length := by
  unfold DataFrame.nrows
  rw [h]

theorem addMissing_nrows {expected : List String} {df : DataFrame} {c0 : Col}
    {tail : List Col} (h : df.cols = c0 :: tail) :
    (addMissing df expected).nrows = df.nrows := by
  obtain ⟨tail2, h2⟩ := addMissing_cols_head expected df c0 tail h
  rw [nrows_of_cols_head h2, nrows_of_cols_head h]

theorem nrows_setCol_not_mem {df : DataFrame} {c : String}
    (h : c ∉ df.names) (cs : List Cell) (hc : df.cols ≠ []) :
    (df.setCol c cs).nrows = df.nrows := by
  rcases hcols : df.cols with _ | ⟨c0, tail⟩
  · exact absurd hcols hc
  · have hname : c0.name ≠ c := by
      intro heq
      exact h (by rw [DataFrame.names, hcols, List.map_cons, heq]; exact List.mem_cons_self _ _)
    rw [nrows_of_cols_head (setCol_cols_head hcols hname cs),
      nrows_of_cols_head hcols]

theorem addMissing_getCol_mem (expected : List String) :
    ∀ (df : DataFrame) (c : String), c ∈ df.names →
    (addMissing df expected).getCol? c = df.getCol? c := by
  induction expected with
  | nil => intro df c _; rfl
  | cons e rest ih =>
    intro df c h
    rw [addMissing_cons]
    by_cases hs : (df.getCol? e).isSome
    · rw [if_pos hs]
      exact ih df c h
    · rw [if_neg hs]
      have hce : c ≠ e := by
        intro heq
        exact hs ((getCol?_isSome_iff df e).mpr (heq ▸ h))
      have hmem2 : c ∈ (df.setCol e (List.replicate df.nrows Cell.null)).names := by
        rw [names_setCol_not_mem _
          (fun hm => hs ((getCol?_isSome_iff df e).mpr hm))]
        exact List.mem_append_left _ h
      rw [ih _ c hmem2]
      exact getCol?_setCol_ne _ _ hce

theorem addMissing_names_spec (expected : List String) :
    ∀ df : DataFrame, ∃ add : List String,
      (addMissing df expected).names = df.names ++ add
      ∧ add.Nodup
      ∧ (∀ a ∈ add, a ∈ expected ∧ a ∉ df.names)
      ∧ (∀ e ∈ expected, e ∈ df.names ∨ e ∈ add) := by
  induction expected with
  | nil =>
    intro df
    exact ⟨[], by simp [addMissing], List.nodup_nil, by simp, by simp⟩
  | cons e rest ih =>
    intro df
    rw [addMissing_cons]
    by_cases hs : (df.getCol? e).isSome
    · rw [if_pos hs]
      obtain ⟨add, h1, h2, h3, h4⟩ := ih df
      refine ⟨add, h1, h2, fun a ha => ⟨List.mem_cons_of_mem _ (h3 a ha).1,
        (h3 a ha).2⟩, ?_⟩
      intro x hx
      rcases List.mem_cons.mp hx with rfl | hx2
      · exact Or.inl ((getCol?_isSome_iff df x).mp hs)
      · exact h4 x hx2
    · rw [if_neg hs]
      have hem : e ∉ df.names := fun hm => hs ((getCol?_isSome_iff df e).mpr hm)
      set d2 := df.setCol e (List.replicate df.nrows .null) with hd2
      have hn2 : d2.names = df.names ++ [e] := names_setCol_not_mem _ hem
      obtain ⟨add, h1, h2, h3, h4⟩ := ih d2
      refine ⟨e :: add, ?_, ?_, ?_, ?_⟩
      · rw [h1, hn2, List.append_assoc]
        rfl
      · refine List.nodup_cons.mpr ⟨?_, h2⟩
        intro hmem
        exact (h3 e hmem).2 (by rw [hn2]; exact List.mem_append_right _ (by simp))
      · intro a ha
        rcases List.mem_cons.mp ha with rfl | ha2
        · exact ⟨List.mem_cons_self _ _, hem⟩
        · refine ⟨List.mem_cons_of_mem _ (h3 a ha2).1, fun hm => (h3 a ha2).2 ?_⟩
          rw [hn2]
          exact List.mem_append_left _ hm
      · intro x hx
        rcases List.mem_cons.mp hx with rfl | hx2
        · exact Or.inr (List.mem_cons_self _ _)
        · rcases h4 x hx2 with hm | hm
          · rw [hn2] at hm
            rcases List.mem_append.mp hm with hm2 | hm2
            · exact Or.inl hm2
            · simp only [List.mem_singleton] at hm2
              exact Or.inr (hm2 ▸ List.mem_cons_self _ _)
          · exact Or.inr (List.mem_cons_of_mem _ hm)

theorem addMissing_getCol_new (expected : List String) :
    ∀ (df : DataFrame) (c : String), df.cols ≠ [] → c ∉ df.names →
    c ∈ (addMissing df expected).names →
    (addMissing df expected).getCol? c
      = some (List.replicate df.nrows Cell.null) := by
  induction expected with
  | nil =>
    intro df c _ hnot hmem
    exact absurd hmem hnot
  | cons e rest ih =>
    intro df c hcols hnot hmem
    rw [addMissing_cons] at hmem ⊢
    by_cases hs : (df.getCol? e).isSome
    · rw [if_pos hs] at hmem ⊢
      exact ih df c hcols hnot hmem
    · rw [if_neg hs] at hmem ⊢
      have hem : e ∉ df.names := fun hm => hs ((getCol?_isSome_iff df e).mpr hm)
      set d2 := df.setCol e (List.replicate df.nrows .null) with hd2
      by_cases hce : c = e
      · subst hce
        have hmem2 : c ∈ d2.names := by
          rw [names_setCol_not_mem _ hem]
          exact List.mem_append_right _ (by simp)
        rw [addMissing_getCol_mem rest d2 c hmem2, hd2, getCol?_setCol_self]
      · have hnot2 : c ∉ d2.names := by
          rw [names_setCol_not_mem _ hem]
          intro hm
          rcases List.mem_append.mp hm with hm2 | hm2
          · exact hnot hm2
          · simp only [List.mem_singleton] at hm2
            exact hce hm2
        have hc2 : d2.cols ≠ [] := by
          rw [hd2]
          show DataFrame.replaceCol e (List.replicate df.nrows Cell.null) df.cols ≠ []
          exact replaceCol_ne_nil _ _ _
        have hr2 : d2.nrows = df.nrows := nrows_setCol_not_mem hem _ hcols
        rw [ih d2 c hc2 hnot2 hmem, hr2]

theorem foldl_extras (region : String) :
    ∀ (l : List String) (acc : List String), l.Nodup →
    l.foldl (fun acc col => if col ∈ acc ∨ col = region then acc
      else acc ++ [col]) acc
      = acc ++ l.filter (fun col => decide (col ∉ acc ∧ col ≠ region)) := by
  intro l
  induction l with
  | nil => intro acc _; simp
  | cons a rest ih =>
    intro acc hnd
    obtain ⟨hna, hnd2⟩ := List.nodup_cons.mp hnd
    rw [List.foldl_cons]
    by_cases ha : a ∈ acc ∨ a = region
    · rw [if_pos ha, ih acc hnd2,
        List.filter_cons_of_neg (by simp only [decide_eq_true_eq]; tauto)]
    · rw [if_neg ha, ih (acc ++ [a]) hnd2,
        List.filter_cons_of_pos (by simp only [decide_eq_true_eq]; tauto)]
      have hcong : rest.filter (fun col => decide (col ∉ acc ++ [a] ∧ col ≠ region))
          = rest.filter (fun col => decide (col ∉ acc ∧ col ≠ region)) := by
        apply List.filter_congr
        intro x hx
        have hxa : x ≠ a := fun h => hna (h ▸ hx)
        simp [List.mem_append, hxa]
      rw [hcong, List.append_assoc]
      rfl

theorem ensure_spec (df : DataFrame) (expected : List String) (c0 : Col)
    (tail : List Col) (hcols : df.cols = c0 :: tail) (hnr : c0.cells ≠ [])
    (hnodup : df.names.Nodup) :
    (ensure_column_consistency df expected).names
      = c0.name :: expected.filter (fun c => decide (c ≠ c0.name))
        ++ (tail.map (fun cl => cl.name)).filter (fun c => decide (c ∉ expected))
    ∧ (∃ tl2, (ensure_column_consistency df expected).cols = c0 :: tl2)
    ∧ (∀ c, c ∈ df.names →
        (ensure_column_consistency df expected).getCol? c = df.getCol? c)
    ∧ (∀ c, c ∈ expected → c ∉ df.names →
        (ensure_column_consistency df expected).getCol? c
          = some (List.replicate df.nrows Cell.null)) := by
  have hemp := empty_false_of_cols hcols hnr
  have hnames : df.names = c0.name :: tail.map (fun cl => cl.name) := by
    unfold DataFrame.names
    rw [hcols, List.map_cons]
  have hheadmem : c0.name ∈ df.names := by
    rw [hnames]; exact List.mem_cons_self _ _
  obtain ⟨hhead_nin, htail_nd⟩ := List.nodup_cons.mp (hnames ▸ hnodup)
  -- the frame after adding the missing expected columns
  obtain ⟨add, hadd_names, hadd_nd, hadd_props, hadd_cover⟩ :=
    addMissing_names_spec expected df
  obtain ⟨tl1, hd1cols⟩ := addMissing_cols_head expected df c0 tail hcols
  set d1 := addMissing df expected with hd1
  have hd1_nodup : d1.names.Nodup := by
    rw [hadd_names]
    refine List.Nodup.append hnodup hadd_nd ?_
    intro x hx1 hx2
    exact (hadd_props x hx2).2 hx1
  have hd1_mem : ∀ c, c ∈ d1.names ↔ c ∈ df.names ∨ c ∈ add := by
    intro c
    rw [hadd_names, List.mem_append]
  have hd1_some : ∀ c, c ∈ expected → (d1.getCol? c).isSome = true := by
    intro c hc
    rw [getCol?_isSome_iff, hd1_mem]
    rcases hadd_cover c hc with h | h
    · exact Or.inl h
    · exact Or.inr h
  -- unfold the function body
  have hbody : ensure_column_consistency df expected
      = d1.select
        (d1.names.foldl (fun acc col =>
          if col ∈ acc ∨ col = c0.name then acc else acc ++ [col])
          (c0.name :: expected.filter
            (fun col => (d1.getCol? col).isSome && col ≠ c0.name))) := by
    unfold ensure_column_consistency
    rw [if_neg (by simp [hemp]), hcols]
  -- the first column list
  have hres1 : expected.filter (fun col => (d1.getCol? col).isSome && col ≠ c0.name)
      = expected.filter (fun col => decide (col ≠ c0.name)) := by
    apply List.filter_congr
    intro x hx
    rw [hd1_some x hx, Bool.true_and]
  set result1 := c0.name :: expected.filter (fun c => decide (c ≠ c0.name))
    with hresult1
  have hmem_res1 : ∀ c, c ∈ result1 ↔ c = c0.name ∨ c ∈ expected := by
    intro c
    rw [hresult1]
    simp only [List.mem_cons, List.mem_filter, decide_eq_true_eq]
    constructor
    · rintro (h | ⟨h1, h2⟩)
      · exact Or.inl h
      · exact Or.inr h1
    · rintro (h | h)
      · exact Or.inl h
      · by_cases hc : c = c0.name
        · exact Or.inl hc
        · exact Or.inr ⟨h, hc⟩
  -- the extras fold
  have hfold := foldl_extras c0.name d1.names result1 hd1_nodup
  -- compute the filtered extras
  have hextras : d1.names.filter (fun col => decide (col ∉ result1 ∧ col ≠ c0.name))
      = (tail.map (fun cl => cl.name)).filter (fun c => decide (c ∉ expected)) := by
    rw [hadd_names, hnames, List.filter_append, List.filter_cons_of_neg
      (by simp only [decide_eq_true_eq]; tauto)]
    have h2 : add.filter (fun col => decide (col ∉ result1 ∧ col ≠ c0.name)) = [] := by
      rw [List.filter_eq_nil_iff]
      intro a ha
      simp only [decide_eq_true_eq, not_and, not_not]
      intro hnotres
      exact absurd ((hmem_res1 a).mpr (Or.inr (hadd_props a ha).1)) hnotres
    rw [h2, List.append_nil]
    apply List.filter_congr
    intro x hx
    have hxne : x ≠ c0.name := fun h => hhead_nin (h ▸ hx)
    rw [decide_eq_decide]
    constructor
    · rintro ⟨h1, h2⟩
      intro hmem
      exact h1 ((hmem_res1 x).mpr (Or.inr hmem))
    · intro h
      refine ⟨fun hmem => ?_, hxne⟩
      rcases (hmem_res1 x).mp hmem with h1 | h1
      · exact hxne h1
      · exact h h1
  set result := result1
    ++ (tail.map (fun cl => cl.name)).filter (fun c => decide (c ∉ expected))
    with hresult
  have hresult_eq : d1.names.foldl (fun acc col =>
      if col ∈ acc ∨ col = c0.name then acc else acc ++ [col]) result1 = result := by
    rw [hfold, hextras]
  have hmem_result : ∀ c, c ∈ df.names ∨ c ∈ expected → c ∈ result := by
    intro c hc
    rw [hresult, List.mem_append]
    by_cases hce : c ∈ expected
    · exact Or.inl ((hmem_res1 c).mpr (Or.inr hce))
    · rcases hc with hc | hc
      · rw [hnames] at hc
        rcases List.mem_cons.mp hc with hceq | hc2
        · exact Or.inl ((hmem_res1 c).mpr (Or.inl hceq))
        · refine Or.inr (List.mem_filter.mpr ⟨hc2, by simpa using hce⟩)
      · exact absurd hc hce
  have hall_some : ∀ n ∈ result, (d1.getCol? n).isSome = true := by
    intro n hn
    rw [hresult, List.mem_append] at hn
    rcases hn with hn | hn
    · rcases (hmem_res1 n).mp hn with hneq | hn2
      · rw [getCol?_isSome_iff, hd1_mem]
        exact Or.inl (hneq ▸ hheadmem)
      · exact hd1_some n hn2
    · have hn2 := (List.mem_filter.mp hn).1
      rw [getCol?_isSome_iff, hd1_mem]
      refine Or.inl ?_
      rw [hnames]
      exact List.mem_cons_of_mem _ hn2
  rw [hbody, hres1, hresult_eq]
  refine ⟨?_, ?_, ?_, ?_⟩
  · rw [names_select, List.filter_eq_self.mpr hall_some, hresult, hresult1]
  · have hfind : d1.cols.find? (fun cl => cl.name = c0.name) = some c0 := by
      rw [hd1cols, List.find?_cons_of_pos _ (by simp)]
    refine ⟨(expected.filter (fun c => decide (c ≠ c0.name))
      ++ (tail.map (fun cl => cl.name)).filter
        (fun c => decide (c ∉ expected))).filterMap
          (fun c => d1.cols.find? (fun cl => cl.name = c)), ?_⟩
    unfold DataFrame.select
    rw [hresult, hresult1]
    rw [List.cons_append, List.filterMap_cons, hfind]
  · intro c hc
    rw [getCol?_select, if_pos (hmem_result c (Or.inl hc))]
    exact addMissing_getCol_mem expected df c hc
  · intro c hc hnotin
    rw [getCol?_select, if_pos (hmem_result c (Or.inr hc))]
    have hmem2 : c ∈ d1.names := (getCol?_isSome_iff d1 c).mp (hd1_some c hc)
    exact addMissing_getCol_new expected df c (by rw [hcols]; simp) hnotin hmem2

/-- Counterexample to C1 as stated: for an input table with a region column
but no rows, `ensure_column_consistency` returns the table unchanged on its
empty fast path, so the expected column "Sales" is neither added nor placed
after the region column. -/
theorem c1_counterexample :
    ensure_column_consistency ⟨[⟨"Region", []⟩]⟩ ["Sales"] = ⟨[⟨"Region", []⟩]⟩
    ∧ "Sales" ∉ (ensure_column_consistency ⟨[⟨"Region", []⟩]⟩ ["Sales"]).names := by
  exact ⟨by decide, by decide⟩

/-- C1 (amended: for input tables with at least one row and at least one
column, and duplicate-free column names): the output column order of
`ensure_column_consistency` is the region (first) column, then every
expected column other than the region column in declared order, then every
additional input column not in the expected list, in input order, never
dropped; expected columns absent from the input are added filled with null
values, and the cells of every input column are preserved. -/
theorem c1_column_consistency_order (df : DataFrame) (expected : List String)
    (c0 : Col) (tail : List Col) (hcols : df.cols = c0 :: tail)
    (hnr : c0.cells ≠ []) (hnodup : df.names.Nodup) :
    (ensure_column_consistency df expected).names
      = c0.name :: expected.filter (fun c => decide (c ≠ c0.name))
        ++ (tail.map (fun cl => cl.name)).filter (fun c => decide (c ∉ expected))
    ∧ (∀ c, c ∈ df.names →
        (ensure_column_consistency df expected).getCol? c = df.getCol? c)
    ∧ (∀ c, c ∈ expected → c ∉ df.names →
        (ensure_column_consistency df expected).getCol? c
          = some (List.replicate df.nrows Cell.null)) := by
  obtain ⟨h1, _, h3, h4⟩ := ensure_spec df expected c0 tail hcols hnr hnodup
  exact ⟨h1, h3, h4⟩

/-- Witness for C1 (amended) at a concrete table with an extra column and a
missing expected column. -/
theorem c1_witness :
    (ensure_column_consistency ⟨[⟨"Region", [Cell.s "TRREB Total"]⟩,
        ⟨"Extra", [Cell.n ⟨1, 1⟩]⟩]⟩ ["Sales"]).names
      = ["Region", "Sales", "Extra"]
    ∧ (ensure_column_consistency ⟨[⟨"Region", [Cell.s "TRREB Total"]⟩,
        ⟨"Extra", [Cell.n ⟨1, 1⟩]⟩]⟩ ["Sales"]).getCol? "Sales"
      = some [Cell.null]
    ∧ (ensure_column_consistency ⟨[⟨"Region", [Cell.s "TRREB Total"]⟩,
        ⟨"Extra", [Cell.n ⟨1, 1⟩]⟩]⟩ ["Sales"]).getCol? "Extra"
      = some [Cell.n ⟨1, 1⟩] := by
  have h := c1_column_consistency_order
    ⟨[⟨"Region", [Cell.s "TRREB Total"]⟩, ⟨"Extra", [Cell.n ⟨1, 1⟩]⟩]⟩
    ["Sales"] ⟨"Region", [Cell.s "TRREB Total"]⟩ [⟨"Extra", [Cell.n ⟨1, 1⟩]⟩]
    rfl (by decide) (by decide)
  refine ⟨h.1.trans (by decide), ?_, ?_⟩
  · exact (h.2.2 "Sales" (by decide) (by decide)).trans (by decide)
  · exact (h.2.1 "Extra" (by decide)).trans (by decide)

/-! # Claim C9: idempotence machinery -/

theorem regionGet_idem (s : String) : regionGet (regionGet s) = regionGet s := by
  have hvals : ∀ p ∈ REGION_NAME_MAPPING, regionGet p.2 = p.2 := by decide
  rcases hf : REGION_NAME_MAPPING.find? (fun p => p.1 = s) with _ | p
  · have h1 : regionGet s = s := by
      unfold regionGet
      rw [hf]
      rfl
    rw [h1]
    exact h1
  · have h1 : regionGet s = p.2 := by
      unfold regionGet
      rw [hf]
      rfl
    rw [h1]
    exact hvals p (List.mem_of_find?_eq_some hf)

theorem canonName_idem (c : String) : canonName (canonName c) = canonName c := by
  have hvals : ∀ p ∈ COLUMN_NAME_MAPPING, canonName p.2 = p.2 := by decide
  rcases hf : COLUMN_NAME_MAPPING.find? (fun p => p.1 = c) with _ | p
  · have h1 : canonName c = c := by
      unfold canonName
      rw [hf]
      rfl
    rw [h1]
    exact h1
  · have h1 : canonName c = p.2 := by
      unfold canonName
      rw [hf]
      rfl
    rw [h1]
    exact hvals p (List.mem_of_find?_eq_some hf)

theorem regionCellFn_idem (cl : Cell) :
    regionCellFn (regionCellFn cl) = regionCellFn cl := by
  cases cl with
  | s v => simp [regionCellFn, regionGet_idem]
  | n v => rfl
  | null => rfl

theorem regionCellFn_of_not_s {cl : Cell} (h : ∀ v, cl ≠ .s v) :
    regionCellFn cl = cl := by
  cases cl with
  | s v => exact absurd rfl (h v)
  | n v => rfl
  | null => rfl

theorem expected_canon_fixed (pt per : String) :
    ∀ c ∈ get_expected_columns pt per, canonName c = c := by
  unfold get_expected_columns
  split_ifs <;> decide

theorem expected_nodup (pt per : String) :
    (get_expected_columns pt per).Nodup := by
  unfold get_expected_columns
  split_ifs <;> decide

theorem expected_no_hier (pt per : String) :
    "parent_region" ∉ get_expected_columns pt per
    ∧ "region_type" ∉ get_expected_columns pt per := by
  unfold get_expected_columns
  split_ifs <;> exact ⟨by decide, by decide⟩

theorem qble_not_blt {a b : Q} (h : Q.ble a b = true) : Q.blt b a = false := by
  simp only [Q.ble, decide_eq_true_eq] at h
  simp only [Q.blt, decide_eq_false_iff_not, not_lt]
  exact h

theorem colMax?_mem (cs : List Cell) :
    ∀ (acc : Option Q) (m : Q),
    cs.foldl (fun acc c =>
      match c with
      | .n v => match acc with | some m => some (Q.max m v) | none => some v
      | _ => acc) acc = some m → acc = some m ∨ Cell.n m ∈ cs := by
  induction cs with
  | nil =>
    intro acc m h
    exact Or.inl h
  | cons cl rest ih =>
    intro acc m h
    rw [List.foldl_cons] at h
    cases cl with
    | s v =>
      rcases ih acc m h with h2 | h2
      · exact Or.inl h2
      · exact Or.inr (List.mem_cons_of_mem _ h2)
    | null =>
      rcases ih acc m h with h2 | h2
      · exact Or.inl h2
      · exact Or.inr (List.mem_cons_of_mem _ h2)
    | n v =>
      rcases acc with _ | a
      · rcases ih (some v) m h with h2 | h2
        · simp only [Option.some_inj] at h2
          exact Or.inr (h2 ▸ List.mem_cons_self _ _)
        · exact Or.inr (List.mem_cons_of_mem _ h2)
      · rcases ih (some (Q.max a v)) m h with h2 | h2
        · simp only [Option.some_inj] at h2
          unfold Q.max at h2
          by_cases hb : Q.blt a v = true
          · rw [if_pos hb] at h2
            exact Or.inr (h2 ▸ List.mem_cons_self _ _)
          · rw [if_neg hb] at h2
            exact Or.inl (by rw [h2])
        · exact Or.inr (List.mem_cons_of_mem _ h2)

theorem pctNumericBranch_id {cs : List Cell}
    (h : ∀ v : Q, Cell.n v ∈ cs → Q.ble v ⟨3, 2⟩ = true) :
    pctNumericBranch cs = cs := by
  unfold pctNumericBranch
  rcases hm : colMax? cs with _ | m
  · simp [hm]
  · rcases hn : colMin? cs with _ | mn
    · simp [hm, hn]
    · have hmem : Cell.n m ∈ cs := by
        rcases colMax?_mem cs none m hm with h2 | h2
        · exact Option.noConfusion h2
        · exact h2
      have hb : Q.blt ⟨3, 2⟩ m = false := qble_not_blt (h m hmem)
      simp [hm, hn, hb]

theorem hasString_map_false (f : Cell → Cell)
    (hf : ∀ cl v, f cl ≠ Cell.s v) (cs : List Cell) :
    hasStringCell (cs.map f) = false := by
  unfold hasStringCell
  rw [List.any_eq_false]
  intro cl hcl
  obtain ⟨a, _, rfl⟩ := List.mem_map.mp hcl
  rcases hfc : f a with v | v | _
  · exact absurd hfc (hf a v)
  · simp
  · simp

theorem coerceMoney_not_s (cl : Cell) (v : String) : coerceMoney cl ≠ Cell.s v := by
  cases cl with
  | s t =>
    simp only [coerceMoney]
    rcases toNumeric? (removeAll ',' (removeAll '$' t)) with _ | w
    · simp
    · simp
  | n w => simp [coerceMoney]
  | null => simp [coerceMoney]

theorem coerceCount_not_s (cl : Cell) (v : String) : coerceCount cl ≠ Cell.s v := by
  cases cl with
  | s t =>
    simp only [coerceCount]
    rcases toNumeric? (removeAll ',' t) with _ | w
    · simp
    · simp
  | n w => simp [coerceCount]
  | null => simp [coerceCount]

theorem coercePct_not_s (cl : Cell) (v : String) : coercePct cl ≠ Cell.s v := by
  cases cl with
  | s t =>
    simp only [coercePct]
    rcases toNumeric? (removeAll '%' t) with _ | w
    · simp
    · simp
  | n w => simp [coercePct]
  | null => simp [coercePct]

theorem coerceDecimal_not_s (cl : Cell) (v : String) : coerceDecimal cl ≠ Cell.s v := by
  cases cl with
  | s t =>
    simp only [coerceDecimal]
    rcases toNumeric? t with _ | w
    · simp
    · simp
  | n w => simp [coerceDecimal]
  | null => simp [coerceDecimal]

theorem hasString_priceColFn (cs : List Cell) :
    hasStringCell (priceColFn cs) = false := by
  unfold priceColFn
  by_cases h : hasStringCell cs = true
  · rw [if_pos h]
    exact hasString_map_false _ coerceMoney_not_s cs
  · rw [if_neg h]
    exact Bool.eq_false_iff.mpr h

theorem hasString_countColFn (cs : List Cell) :
    hasStringCell (countColFn cs) = false := by
  unfold countColFn
  by_cases h : hasStringCell cs = true
  · rw [if_pos h]
    exact hasString_map_false _ coerceCount_not_s cs
  · rw [if_neg h]
    exact Bool.eq_false_iff.mpr h

theorem hasString_decimalColFn (cs : List Cell) :
    hasStringCell (decimalColFn cs) = false := by
  unfold decimalColFn
  by_cases h : hasStringCell cs = true
  · rw [if_pos h]
    exact hasString_map_false _ coerceDecimal_not_s cs
  · rw [if_neg h]
    exact Bool.eq_false_iff.mpr h

theorem hasString_pctNumericBranch {cs : List Cell}
    (h : hasStringCell cs = false) :
    hasStringCell (pctNumericBranch cs) = false := by
  have hmap : hasStringCell (cs.map (fun c => match c with
      | Cell.n v => Cell.n (v.divNat 100) | c => c)) = false := by
    unfold hasStringCell at h ⊢
    rw [List.any_eq_false] at h ⊢
    intro cl hcl
    obtain ⟨a, ha, rfl⟩ := List.mem_map.mp hcl
    have h2 := h a ha
    cases a <;> simp_all
  unfold pctNumericBranch
  split
  · split
    · exact hmap
    · exact h
  · exact h

theorem hasString_pctColFn (cs : List Cell) :
    hasStringCell (pctColFn cs) = false := by
  unfold pctColFn
  by_cases h : hasStringCell cs = true
  · rw [if_pos h]
    exact hasString_map_false _ coercePct_not_s cs
  · rw [if_neg h]
    exact hasString_pctNumericBranch (Bool.eq_false_iff.mpr h)

/-! ### Second-run no-op lemmas: each stage fixes an already-normalized frame -/

theorem standardize_region_names_fix {df : DataFrame} {c0 : Col} {tail : List Col}
    (hcols : df.cols = c0 :: tail)
    (hfix : ∀ cl ∈ c0.cells, regionCellFn cl = cl) :
    standardize_region_names df = df := by
  unfold standardize_region_names
  by_cases hemp : df.empty = true
  · rw [if_pos hemp]
  · rw [if_neg hemp, hcols]
    show DataFrame.mk (⟨c0.name, c0.cells.map regionCellFn⟩ :: tail) = df
    rw [list_map_self hfix]
    exact congrArg DataFrame.mk hcols.symm

theorem standardize_column_names_fix {df : DataFrame}
    (hfix : ∀ n ∈ df.names, canonName n = n) :
    standardize_column_names df = df := by
  unfold standardize_column_names
  by_cases hemp : df.empty = true
  · rw [if_pos hemp]
  · rw [if_neg hemp]
    have h2 : ∀ col ∈ df.cols, (⟨canonName col.name, col.cells⟩ : Col) = col := by
      intro col hcol
      have h3 : canonName col.name = col.name :=
        hfix col.name (List.mem_map.mpr ⟨col, hcol, rfl⟩)
      rw [h3]
    rw [list_map_self h2]

theorem foldl_convertStep_fix (f : List Cell → List Cell) :
    ∀ (cols : List String) (d : DataFrame),
    (∀ c ∈ cols, ∀ cs, d.getCol? c = some cs → f cs = cs) →
    cols.foldl (convertStep f) d = d := by
  intro cols
  induction cols with
  | nil =>
    intro d _
    rfl
  | cons a rest ih =>
    intro d h
    rw [List.foldl_cons]
    have hstep : convertStep f d a = d := by
      unfold convertStep
      rcases hf : d.getCol? a with _ | cs
      · simp only [hf]
      · simp only [hf]
        rw [h a (List.mem_cons_self a rest) cs hf]
        exact setCol_eq_self hf
    rw [hstep]
    exact ih d (fun c hc cs hcs => h c (List.mem_cons_of_mem a hc) cs hcs)

theorem priceColFn_id {cs : List Cell} (h : hasStringCell cs = false) :
    priceColFn cs = cs := by
  unfold priceColFn
  rw [if_neg (by simp [h])]

theorem countColFn_id {cs : List Cell} (h : hasStringCell cs = false) :
    countColFn cs = cs := by
  unfold countColFn
  rw [if_neg (by simp [h])]

theorem decimalColFn_id {cs : List Cell} (h : hasStringCell cs = false) :
    decimalColFn cs = cs := by
  unfold decimalColFn
  rw [if_neg (by simp [h])]

theorem pctColFn_id {cs : List Cell} (h : hasStringCell cs = false)
    (hb : ∀ v : Q, Cell.n v ∈ cs → Q.ble v ⟨3, 2⟩ = true) :
    pctColFn cs = cs := by
  unfold pctColFn
  rw [if_neg (by simp [h])]
  exact pctNumericBranch_id hb

theorem convert_numeric_columns_fix {df : DataFrame}
    (hpc : ∀ c ∈ price_cols, ∀ cs, df.getCol? c = some cs →
      hasStringCell cs = false)
    (hcc : ∀ c ∈ count_cols, ∀ cs, df.getCol? c = some cs →
      hasStringCell cs = false)
    (hdc : ∀ c ∈ decimal_cols, ∀ cs, df.getCol? c = some cs →
      hasStringCell cs = false)
    (hpct : ∀ c ∈ percentage_cols, ∀ cs, df.getCol? c = some cs →
      hasStringCell cs = false
        ∧ ∀ v : Q, Cell.n v ∈ cs → Q.ble v ⟨3, 2⟩ = true) :
    convert_numeric_columns df = df := by
  unfold convert_numeric_columns
  by_cases hemp : df.empty = true
  · rw [if_pos hemp]
  · rw [if_neg hemp]
    show decimal_cols.foldl (convertStep decimalColFn)
        (percentage_cols.foldl (convertStep pctColFn)
          (count_cols.foldl (convertStep countColFn)
            (price_cols.foldl (convertStep priceColFn) df))) = df
    rw [foldl_convertStep_fix priceColFn price_cols df
        (fun c hc cs hcs => priceColFn_id (hpc c hc cs hcs)),
      foldl_convertStep_fix countColFn count_cols df
        (fun c hc cs hcs => countColFn_id (hcc c hc cs hcs)),
      foldl_convertStep_fix pctColFn percentage_cols df
        (fun c hc cs hcs =>
          pctColFn_id (hpct c hc cs hcs).1 (hpct c hc cs hcs).2),
      foldl_convertStep_fix decimalColFn decimal_cols df
        (fun c hc cs hcs => decimalColFn_id (hdc c hc cs hcs))]

theorem add_hierarchy_columns_fix {df : DataFrame} {c0 : Col} {tail : List Col}
    (hcols : df.cols = c0 :: tail) (hnr : c0.cells ≠ [])
    (hp : df.getCol? "parent_region" = some (c0.cells.map parentCellFn))
    (ht : df.getCol? "region_type" = some (c0.cells.map typeCellFn)) :
    add_hierarchy_columns df = df := by
  have hemp := empty_false_of_cols hcols hnr
  have hget : df.getCol? c0.name = some c0.cells := getCol?_head hcols
  unfold add_hierarchy_columns
  rw [if_neg (by simp [hemp]), hcols]
  simp only
  rw [hget]
  simp only [Option.getD_some]
  rw [setCol_eq_self hp]
  rw [hget]
  simp only [Option.getD_some]
  exact setCol_eq_self ht

theorem addMissing_id : ∀ (expected : List String) (df : DataFrame),
    (∀ e ∈ expected, e ∈ df.names) → addMissing df expected = df := by
  intro expected
  induction expected with
  | nil =>
    intro df _
    rfl
  | cons e rest ih =>
    intro df h
    rw [addMissing_cons,
      if_pos ((getCol?_isSome_iff df e).mpr (h e (List.mem_cons_self e rest)))]
    exact ih df (fun a ha => h a (List.mem_cons_of_mem e ha))

theorem filterMap_find_names : ∀ cols : List Col,
    (cols.map (fun cl => cl.name)).Nodup →
    (cols.map (fun cl => cl.name)).filterMap
      (fun c => cols.find? (fun col => col.name = c)) = cols := by
  intro cols
  induction cols with
  | nil =>
    intro _
    rfl
  | cons c0 rest ih =>
    intro h
    rw [List.map_cons] at h
    obtain ⟨hnin, hnd⟩ := List.nodup_cons.mp h
    rw [List.map_cons, List.filterMap_cons,
      List.find?_cons_of_pos _ (by simp)]
    have hcong : ∀ n ∈ rest.map (fun cl => cl.name),
        (c0 :: rest).find? (fun col => col.name = n)
          = rest.find? (fun col => col.name = n) := by
      intro n hn
      have hne : ¬ (c0.name = n) := fun h2 => hnin (h2 ▸ hn)
      rw [List.find?_cons_of_neg _ (by simpa using hne)]
    rw [List.filterMap_congr hcong]
    rw [ih hnd]

theorem select_names_self {df : DataFrame} (h : df.names.Nodup) :
    df.select df.names = df := by
  unfold DataFrame.select DataFrame.names
  unfold DataFrame.names at h
  rw [filterMap_find_names df.cols h]

theorem cols_of_names_cons {df : DataFrame} {n : String} {ns : List String}
    (h : df.names = n :: ns) :
    ∃ c0 tail, df.cols = c0 :: tail ∧ c0.name = n
      ∧ tail.map (fun cl => cl.name) = ns := by
  unfold DataFrame.names at h
  rcases hcols : df.cols with _ | ⟨c0, tail⟩
  · rw [hcols] at h
    exact List.noConfusion h
  · rw [hcols, List.map_cons] at h
    injection h with h1 h2
    exact ⟨c0, tail, rfl, h1, h2⟩

theorem names_setCol_nodup (df : DataFrame) (c : String) (cs : List Cell)
    (h : df.names.Nodup) : (df.setCol c cs).names.Nodup := by
  by_cases hmem : c ∈ df.names
  · rw [names_setCol_mem cs hmem]
    exact h
  · rw [names_setCol_not_mem cs hmem]
    refine List.Nodup.append h (List.nodup_singleton c) ?_
    intro x hx1 hx2
    rw [List.mem_singleton] at hx2
    exact hmem (hx2 ▸ hx1)

theorem names_setCol_sub (df : DataFrame) (c : String) (cs : List Cell) :
    ∀ n ∈ (df.setCol c cs).names, n ∈ df.names ∨ n = c := by
  by_cases hmem : c ∈ df.names
  · rw [names_setCol_mem cs hmem]
    exact fun n hn => Or.inl hn
  · rw [names_setCol_not_mem cs hmem]
    intro n hn
    rcases List.mem_append.mp hn with h | h
    · exact Or.inl h
    · exact Or.inr (List.mem_singleton.mp h)

theorem add_hierarchy_getCol_other {df : DataFrame} {c0 : Col} {tail : List Col}
    (hcols : df.cols = c0 :: tail) (hnr : c0.cells ≠ []) :
    ∀ c, c ≠ "parent_region" → c ≠ "region_type" →
    (add_hierarchy_columns df).getCol? c = df.getCol? c := by
  have hemp := empty_false_of_cols hcols hnr
  intro c h1 h2
  unfold add_hierarchy_columns
  rw [if_neg (by simp [hemp]), hcols]
  simp only
  rw [getCol?_setCol_ne _ _ h2, getCol?_setCol_ne _ _ h1]

theorem add_hierarchy_cols_head {df : DataFrame} {c0 : Col} {tail : List Col}
    (hcols : df.cols = c0 :: tail) (hnr : c0.cells ≠ [])
    (hpr : c0.name ≠ "parent_region") (hrt : c0.name ≠ "region_type") :
    ∃ tail2, (add_hierarchy_columns df).cols = c0 :: tail2 := by
  have hemp := empty_false_of_cols hcols hnr
  unfold add_hierarchy_columns
  rw [if_neg (by simp [hemp]), hcols]
  simp only
  have h1 := setCol_cols_head hcols hpr
    ((((df.getCol? c0.name)).getD []).map parentCellFn)
  exact ⟨_, setCol_cols_head h1 hrt _⟩

theorem add_hierarchy_names_nodup {df : DataFrame} (h : df.names.Nodup) :
    (add_hierarchy_columns df).names.Nodup := by
  unfold add_hierarchy_columns
  by_cases hemp : df.empty = true
  · rw [if_pos hemp]
    exact h
  · rw [if_neg hemp]
    rcases df.cols with _ | ⟨c0, tail⟩
    · exact h
    · simp only
      exact names_setCol_nodup _ _ _ (names_setCol_nodup _ _ _ h)

theorem add_hierarchy_names_sub (df : DataFrame) :
    ∀ n ∈ (add_hierarchy_columns df).names,
      n ∈ df.names ∨ n = "parent_region" ∨ n = "region_type" := by
  unfold add_hierarchy_columns
  by_cases hemp : df.empty = true
  · rw [if_pos hemp]
    exact fun n hn => Or.inl hn
  · rw [if_neg hemp]
    rcases df.cols with _ | ⟨c0, tail⟩
    · exact fun n hn => Or.inl hn
    · simp only
      intro n hn
      rcases names_setCol_sub _ _ _ n hn with h | h
      · rcases names_setCol_sub _ _ _ n h with h2 | h2
        · exact Or.inl h2
        · exact Or.inr (Or.inl h2)
      · exact Or.inr (Or.inr h)

theorem standardize_region_names_cols {df : DataFrame} {c0 : Col}
    {tail : List Col} (hcols : df.cols = c0 :: tail) (hnr : c0.cells ≠ []) :
    (standardize_region_names df).cols
      = ⟨c0.name, c0.cells.map regionCellFn⟩ :: tail := by
  have hemp := empty_false_of_cols hcols hnr
  unfold standardize_region_names
  rw [if_neg (by simp [hemp]), hcols]

theorem standardize_region_names_names {df : DataFrame} {c0 : Col}
    {tail : List Col} (hcols : df.cols = c0 :: tail) (hnr : c0.cells ≠ []) :
    (standardize_region_names df).names = df.names := by
  unfold DataFrame.names
  rw [standardize_region_names_cols hcols hnr, hcols, List.map_cons,
    List.map_cons]

theorem standardize_column_names_cols {df : DataFrame}
    (hemp : df.empty = false) :
    (standardize_column_names df).cols
      = df.cols.map (fun col => ⟨canonName col.name, col.cells⟩) := by
  unfold standardize_column_names
  rw [if_neg (by simp [hemp])]

theorem standardize_column_names_names {df : DataFrame}
    (hemp : df.empty = false) :
    (standardize_column_names df).names = df.names.map canonName := by
  unfold DataFrame.names
  rw [standardize_column_names_cols hemp, List.map_map, List.map_map]
  rfl

theorem regionFixed_map_coerce {f : Cell → Cell}
    (hf : ∀ cl v, f cl ≠ Cell.s v) (cs : List Cell) :
    ∀ cl ∈ cs.map f, regionCellFn cl = cl := by
  intro cl hcl
  obtain ⟨a, _, rfl⟩ := List.mem_map.mp hcl
  exact regionCellFn_of_not_s (hf a)

theorem regionFixed_map_regionCellFn (cs : List Cell) :
    ∀ cl ∈ cs.map regionCellFn, regionCellFn cl = cl := by
  intro cl hcl
  obtain ⟨a, _, rfl⟩ := List.mem_map.mp hcl
  exact regionCellFn_idem a

theorem regionFixed_priceColFn {cs : List Cell}
    (h : ∀ cl ∈ cs, regionCellFn cl = cl) :
    ∀ cl ∈ priceColFn cs, regionCellFn cl = cl := by
  unfold priceColFn
  by_cases hs : hasStringCell cs = true
  · rw [if_pos hs]
    exact regionFixed_map_coerce coerceMoney_not_s cs
  · rw [if_neg hs]
    exact h

theorem regionFixed_countColFn {cs : List Cell}
    (h : ∀ cl ∈ cs, regionCellFn cl = cl) :
    ∀ cl ∈ countColFn cs, regionCellFn cl = cl := by
  unfold countColFn
  by_cases hs : hasStringCell cs = true
  · rw [if_pos hs]
    exact regionFixed_map_coerce coerceCount_not_s cs
  · rw [if_neg hs]
    exact h

theorem regionFixed_decimalColFn {cs : List Cell}
    (h : ∀ cl ∈ cs, regionCellFn cl = cl) :
    ∀ cl ∈ decimalColFn cs, regionCellFn cl = cl := by
  unfold decimalColFn
  by_cases hs : hasStringCell cs = true
  · rw [if_pos hs]
    exact regionFixed_map_coerce coerceDecimal_not_s cs
  · rw [if_neg hs]
    exact h

theorem regionFixed_pctNumericBranch {cs : List Cell}
    (h : ∀ cl ∈ cs, regionCellFn cl = cl) :
    ∀ cl ∈ pctNumericBranch cs, regionCellFn cl = cl := by
  unfold pctNumericBranch
  split
  · split
    · intro cl hcl
      obtain ⟨a, ha, rfl⟩ := List.mem_map.mp hcl
      cases a with
      | s v => exact h _ ha
      | n v => rfl
      | null => rfl
    · exact h
  · exact h

theorem regionFixed_pctColFn {cs : List Cell}
    (h : ∀ cl ∈ cs, regionCellFn cl = cl) :
    ∀ cl ∈ pctColFn cs, regionCellFn cl = cl := by
  unfold pctColFn
  by_cases hs : hasStringCell cs = true
  · rw [if_pos hs]
    exact regionFixed_map_coerce coercePct_not_s cs
  · rw [if_neg hs]
    exact regionFixed_pctNumericBranch h

theorem priceColFn_ne_nil {cs : List Cell} (h : cs ≠ []) :
    priceColFn cs ≠ [] := by
  unfold priceColFn
  split
  · simpa using h
  · exact h

theorem countColFn_ne_nil {cs : List Cell} (h : cs ≠ []) :
    countColFn cs ≠ [] := by
  unfold countColFn
  split
  · simpa using h
  · exact h

theorem decimalColFn_ne_nil {cs : List Cell} (h : cs ≠ []) :
    decimalColFn cs ≠ [] := by
  unfold decimalColFn
  split
  · simpa using h
  · exact h

theorem pctNumericBranch_ne_nil {cs : List Cell} (h : cs ≠ []) :
    pctNumericBranch cs ≠ [] := by
  unfold pctNumericBranch
  split
  · split
    · simpa using h
    · exact h
  · exact h

theorem pctColFn_ne_nil {cs : List Cell} (h : cs ≠ []) :
    pctColFn cs ≠ [] := by
  unfold pctColFn
  split
  · simpa using h
  · exact pctNumericBranch_ne_nil h

theorem ensure_fix {df : DataFrame} {expected : List String} {c0 : Col}
    {tail : List Col} {rest : List String}
    (hcols : df.cols = c0 :: tail) (hnr : c0.cells ≠ [])
    (hnodup : df.names.Nodup)
    (hnames : df.names = c0.name ::
        expected.filter (fun c => decide (c ≠ c0.name)) ++ rest)
    (hrest : ∀ r ∈ rest, r ∉ expected) :
    ensure_column_consistency df expected = df := by
  have hemp := empty_false_of_cols hcols hnr
  have hexp : ∀ e ∈ expected, e ∈ df.names := by
    intro e he
    rw [hnames]
    by_cases hec : e = c0.name
    · exact List.mem_append_left _ (hec ▸ List.mem_cons_self _ _)
    · exact List.mem_append_left _ (List.mem_cons_of_mem _
        (List.mem_filter.mpr ⟨he, by simpa using hec⟩))
  have hd1 : addMissing df expected = df := addMissing_id expected df hexp
  have hbody : ensure_column_consistency df expected
      = (addMissing df expected).select
        ((addMissing df expected).names.foldl (fun acc col =>
          if col ∈ acc ∨ col = c0.name then acc else acc ++ [col])
          (c0.name :: expected.filter
            (fun col => ((addMissing df expected).getCol? col).isSome
              && col ≠ c0.name))) := by
    unfold ensure_column_consistency
    rw [if_neg (by simp [hemp]), hcols]
  rw [hbody, hd1]
  have hres1 : expected.filter
      (fun col => (df.getCol? col).isSome && col ≠ c0.name)
      = expected.filter (fun c => decide (c ≠ c0.name)) := by
    apply List.filter_congr
    intro x hx
    rw [(getCol?_isSome_iff df x).mpr (hexp x hx), Bool.true_and]
  rw [hres1, foldl_extras c0.name df.names _ hnodup]
  have hhead_nin : c0.name
      ∉ expected.filter (fun c => decide (c ≠ c0.name)) ++ rest := by
    have h2 : (c0.name
        :: (expected.filter (fun c => decide (c ≠ c0.name)) ++ rest)).Nodup := by
      rw [← List.cons_append, ← hnames]
      exact hnodup
    exact (List.nodup_cons.mp h2).1
  have hfilter : df.names.filter (fun col => decide
      (col ∉ c0.name :: expected.filter (fun c => decide (c ≠ c0.name))
        ∧ col ≠ c0.name)) = rest := by
    rw [hnames, List.filter_append, List.filter_cons_of_neg (by
      intro h
      simp only [decide_eq_true_eq] at h
      exact absurd rfl h.2)]
    have h1 : (expected.filter (fun c => decide (c ≠ c0.name))).filter
        (fun col => decide
          (col ∉ c0.name :: expected.filter (fun c => decide (c ≠ c0.name))
            ∧ col ≠ c0.name)) = [] := by
      rw [List.filter_eq_nil_iff]
      intro a ha
      simp only [decide_eq_true_eq, not_and]
      intro hnotmem
      exact absurd (List.mem_cons_of_mem _ ha) hnotmem
    have h2 : rest.filter (fun col => decide
        (col ∉ c0.name :: expected.filter (fun c => decide (c ≠ c0.name))
          ∧ col ≠ c0.name)) = rest := by
      rw [List.filter_eq_self]
      intro r hr
      simp only [decide_eq_true_eq]
      have hrne : r ≠ c0.name := fun h =>
        hhead_nin (h ▸ List.mem_append_right _ hr)
      refine ⟨?_, hrne⟩
      intro hmem
      rcases List.mem_cons.mp hmem with h | h
      · exact hrne h
      · exact hrest r hr (List.mem_filter.mp h).1
    rw [h1, h2, List.nil_append]
  rw [hfilter]
  have hlist : (c0.name :: expected.filter (fun c => decide (c ≠ c0.name)))
      ++ rest = df.names := by
    rw [hnames]
  rw [hlist]
  exact select_names_self hnodup

theorem cols_of_empty_false {df : DataFrame} (h : df.empty = false) :
    ∃ c0 tail, df.cols = c0 :: tail ∧ c0.cells ≠ [] := by
  unfold DataFrame.empty DataFrame.nrows at h
  rcases hc : df.cols with _ | ⟨c0, tail⟩
  · rw [hc] at h
    simp [List.isEmpty] at h
  · rw [hc] at h
    simp at h
    exact ⟨c0, tail, rfl, fun hnil => by simp [hnil] at h⟩

theorem convert_names (df : DataFrame) :
    (convert_numeric_columns df).names = df.names := by
  unfold convert_numeric_columns
  split
  · rfl
  · show (decimal_cols.foldl (convertStep decimalColFn)
      (percentage_cols.foldl (convertStep pctColFn)
        (count_cols.foldl (convertStep countColFn)
          (price_cols.foldl (convertStep priceColFn) df)))).names = df.names
    rw [foldl_convertStep_names, foldl_convertStep_names,
      foldl_convertStep_names, foldl_convertStep_names]

theorem hasString_replicate_null (n : Nat) :
    hasStringCell (List.replicate n Cell.null) = false := by
  unfold hasStringCell
  rw [List.any_eq_false]
  intro cl hcl
  rw [List.eq_of_mem_replicate hcl]
  simp

theorem convert_group_noString {df : DataFrame} (hemp : df.empty = false)
    {c : String}
    (hg : c ∈ price_cols ∨ c ∈ count_cols ∨ c ∈ percentage_cols
      ∨ c ∈ decimal_cols)
    {cs : List Cell} (h : (convert_numeric_columns df).getCol? c = some cs) :
    hasStringCell cs = false := by
  rw [convert_getCol df hemp c] at h
  rcases hg with hp | hc | hpc | hd
  · rw [if_pos hp] at h
    rcases hdf : df.getCol? c with _ | cs2
    · rw [hdf] at h
      exact Option.noConfusion h
    · rw [hdf, Option.map_some'] at h
      rw [← Option.some_inj.mp h]
      exact hasString_priceColFn cs2
  · obtain ⟨hn1, hn2, hn3⟩ := count_not_elsewhere hc
    rw [if_neg hn1, if_pos hc] at h
    rcases hdf : df.getCol? c with _ | cs2
    · rw [hdf] at h
      exact Option.noConfusion h
    · rw [hdf, Option.map_some'] at h
      rw [← Option.some_inj.mp h]
      exact hasString_countColFn cs2
  · obtain ⟨hn1, hn2, hn3⟩ := pct_not_elsewhere hpc
    rw [if_neg hn1, if_neg hn2, if_pos hpc] at h
    rcases hdf : df.getCol? c with _ | cs2
    · rw [hdf] at h
      exact Option.noConfusion h
    · rw [hdf, Option.map_some'] at h
      rw [← Option.some_inj.mp h]
      exact hasString_pctColFn cs2
  · obtain ⟨hn1, hn2, hn3⟩ := decimal_not_elsewhere hd
    rw [if_neg hn1, if_neg hn2, if_neg hn3, if_pos hd] at h
    rcases hdf : df.getCol? c with _ | cs2
    · rw [hdf] at h
      exact Option.noConfusion h
    · rw [hdf, Option.map_some'] at h
      rw [← Option.some_inj.mp h]
      exact hasString_decimalColFn cs2

/-- Counterexample to C9 as stated: normalization is not a fixed point on all
of its own outputs.  Start from a table whose "SNLR Trend" column holds the
string "160%": the first run coerces it to the numeric ratio 1.6, and the
second run's already-numeric percentage heuristic (`max() > 1.5` and
`min() >= 0`) fires again and divides it once more by 100, so running
`normalize_dataset` on its own output with the same date string and property
type changes the table. -/
theorem c9_counterexample :
    normalize_dataset
      (normalize_dataset
        ⟨[⟨"Region", [.s "TRREB Total"]⟩, ⟨"SNLR Trend", [.s "160%"]⟩]⟩
        (some "2020-05") "all_home_types")
      (some "2020-05") "all_home_types"
    ≠ normalize_dataset
      ⟨[⟨"Region", [.s "TRREB Total"]⟩, ⟨"SNLR Trend", [.s "160%"]⟩]⟩
      (some "2020-05") "all_home_types" := by
  decide

/-- C9 (amended).  Idempotence of normalization holds on every table whose
column labels are pairwise distinct after canonicalization, whose first
(region) column is not named `parent_region` or `region_type` after
canonicalization, and whose normalized output carries no percentage value
above 1.5: re-running `normalize_dataset` with the same date string and
property type returns its own output unchanged.  The percentage bound is
necessary: the already-numeric percentage heuristic of
`convert_numeric_columns` re-divides any percentage column whose maximum
exceeds 1.5 (see the counterexample). -/
theorem c9_normalize_idempotent (x : DataFrame) (d : Option String) (p : String)
    (h1 : (x.names.map canonName).Nodup)
    (h2 : ∀ n ∈ x.names.take 1,
      canonName n ≠ "parent_region" ∧ canonName n ≠ "region_type")
    (h3 : ∀ c ∈ percentage_cols, ∀ v : Q,
      Cell.n v ∈ ((normalize_dataset x d p).getCol? c).getD []
        → Q.ble v ⟨3, 2⟩ = true) :
    normalize_dataset (normalize_dataset x d p) d p
      = normalize_dataset x d p := by
  by_cases hempx : x.empty = true
  · have h0 : normalize_dataset x d p = x := by
      unfold normalize_dataset
      rw [if_pos hempx]
    rw [h0]
    exact h0
  · have hempx2 : x.empty = false := Bool.eq_false_iff.mpr hempx
    obtain ⟨x0, xtail, hxcols, hx0⟩ := cols_of_empty_false hempx2
    set y := normalize_dataset x d p with hydef
    clear_value y
    have hS1cols := standardize_region_names_cols hxcols hx0
    have hbase_nn : (x0.cells.map regionCellFn) ≠ [] := by simpa using hx0
    have hS1emp : (standardize_region_names x).empty = false :=
      empty_false_of_cols hS1cols hbase_nn
    have hS2cols : (standardize_column_names (standardize_region_names x)).cols
        = ⟨canonName x0.name, x0.cells.map regionCellFn⟩
          :: xtail.map (fun col => ⟨canonName col.name, col.cells⟩) := by
      rw [standardize_column_names_cols hS1emp, hS1cols, List.map_cons]
    have hS2emp : (standardize_column_names
        (standardize_region_names x)).empty = false :=
      empty_false_of_cols hS2cols hbase_nn
    have hS2names : (standardize_column_names
        (standardize_region_names x)).names = x.names.map canonName := by
      rw [standardize_column_names_names hS1emp,
        standardize_region_names_names hxcols hx0]
    have hS2head : (standardize_column_names
        (standardize_region_names x)).getCol? (canonName x0.name)
        = some (x0.cells.map regionCellFn) := getCol?_head hS2cols
    have hS3names : (convert_numeric_columns (standardize_column_names
        (standardize_region_names x))).names = x.names.map canonName := by
      rw [convert_names, hS2names]
    have hxnames : x.names = x0.name :: xtail.map (fun cl => cl.name) := by
      unfold DataFrame.names
      rw [hxcols, List.map_cons]
    have hS3names_cons : (convert_numeric_columns (standardize_column_names
        (standardize_region_names x))).names
        = canonName x0.name
          :: (xtail.map (fun cl => cl.name)).map canonName := by
      rw [hS3names, hxnames, List.map_cons]
    obtain ⟨c3, t3, hS3cols, hc3name, ht3names⟩ :=
      cols_of_names_cons hS3names_cons
    have hS3nodup : (convert_numeric_columns (standardize_column_names
        (standardize_region_names x))).names.Nodup := by
      rw [hS3names]
      exact h1
    have hS3head : (convert_numeric_columns (standardize_column_names
        (standardize_region_names x))).getCol? (canonName x0.name)
        = some c3.cells := by
      have hg := getCol?_head hS3cols
      rw [hc3name] at hg
      exact hg
    have hcases : c3.cells = priceColFn (x0.cells.map regionCellFn)
        ∨ c3.cells = countColFn (x0.cells.map regionCellFn)
        ∨ c3.cells = pctColFn (x0.cells.map regionCellFn)
        ∨ c3.cells = decimalColFn (x0.cells.map regionCellFn)
        ∨ c3.cells = x0.cells.map regionCellFn := by
      have hg := convert_getCol (standardize_column_names
        (standardize_region_names x)) hS2emp (canonName x0.name)
      rw [hS3head, hS2head] at hg
      by_cases hp : canonName x0.name ∈ price_cols
      · rw [if_pos hp, Option.map_some'] at hg
        exact Or.inl (Option.some_inj.mp hg)
      · rw [if_neg hp] at hg
        by_cases hcnt : canonName x0.name ∈ count_cols
        · rw [if_pos hcnt, Option.map_some'] at hg
          exact Or.inr (Or.inl (Option.some_inj.mp hg))
        · rw [if_neg hcnt] at hg
          by_cases hpct : canonName x0.name ∈ percentage_cols
          · rw [if_pos hpct, Option.map_some'] at hg
            exact Or.inr (Or.inr (Or.inl (Option.some_inj.mp hg)))
          · rw [if_neg hpct] at hg
            by_cases hdec : canonName x0.name ∈ decimal_cols
            · rw [if_pos hdec, Option.map_some'] at hg
              exact Or.inr (Or.inr (Or.inr (Or.inl (Option.some_inj.mp hg))))
            · rw [if_neg hdec] at hg
              exact Or.inr (Or.inr (Or.inr (Or.inr (Option.some_inj.mp hg))))
    have hc3nn : c3.cells ≠ [] := by
      rcases hcases with h | h | h | h | h
      · rw [h]
        exact priceColFn_ne_nil hbase_nn
      · rw [h]
        exact countColFn_ne_nil hbase_nn
      · rw [h]
        exact pctColFn_ne_nil hbase_nn
      · rw [h]
        exact decimalColFn_ne_nil hbase_nn
      · rw [h]
        exact hbase_nn
    have hbase_fix := regionFixed_map_regionCellFn x0.cells
    have hc3fix : ∀ cl ∈ c3.cells, regionCellFn cl = cl := by
      rcases hcases with h | h | h | h | h
      · rw [h]
        exact regionFixed_priceColFn hbase_fix
      · rw [h]
        exact regionFixed_countColFn hbase_fix
      · rw [h]
        exact regionFixed_pctColFn hbase_fix
      · rw [h]
        exact regionFixed_decimalColFn hbase_fix
      · rw [h]
        exact hbase_fix
    obtain ⟨hprname, hrtname⟩ := h2 x0.name (by rw [hxnames]; simp)
    have hc3pr : c3.name ≠ "parent_region" := by
      rw [hc3name]
      exact hprname
    have hc3rt : c3.name ≠ "region_type" := by
      rw [hc3name]
      exact hrtname
    obtain ⟨hS4pr, hS4rt⟩ := add_hierarchy_spec hS3cols hc3nn hc3pr
    have hS4other := add_hierarchy_getCol_other hS3cols hc3nn
    obtain ⟨t4, hS4cols⟩ := add_hierarchy_cols_head hS3cols hc3nn hc3pr hc3rt
    have hS4nodup : (add_hierarchy_columns (convert_numeric_columns
        (standardize_column_names
          (standardize_region_names x)))).names.Nodup :=
      add_hierarchy_names_nodup hS3nodup
    have hS4sub := add_hierarchy_names_sub (convert_numeric_columns
      (standardize_column_names (standardize_region_names x)))
    have hS4emp : (add_hierarchy_columns (convert_numeric_columns
        (standardize_column_names
          (standardize_region_names x)))).empty = false :=
      empty_false_of_cols hS4cols hc3nn
    have hS4names_cons : (add_hierarchy_columns (convert_numeric_columns
        (standardize_column_names (standardize_region_names x)))).names
        = c3.name :: t4.map (fun cl => cl.name) := by
      unfold DataFrame.names
      rw [hS4cols, List.map_cons]
    have hS4canon : ∀ n ∈ (add_hierarchy_columns (convert_numeric_columns
        (standardize_column_names (standardize_region_names x)))).names,
        canonName n = n := by
      intro n hn
      rcases hS4sub n hn with hns | hns | hns
      · rw [hS3names] at hns
        obtain ⟨m, _, rfl⟩ := List.mem_map.mp hns
        exact canonName_idem m
      · rw [hns]
        decide
      · rw [hns]
        decide
    have hg1 : ∀ c ∈ price_cols,
        c ≠ "parent_region" ∧ c ≠ "region_type" := by decide
    have hg2 : ∀ c ∈ count_cols,
        c ≠ "parent_region" ∧ c ≠ "region_type" := by decide
    have hg3 : ∀ c ∈ percentage_cols,
        c ≠ "parent_region" ∧ c ≠ "region_type" := by decide
    have hg4 : ∀ c ∈ decimal_cols,
        c ≠ "parent_region" ∧ c ≠ "region_type" := by decide
    have hS4noString : ∀ c, (c ∈ price_cols ∨ c ∈ count_cols
          ∨ c ∈ percentage_cols ∨ c ∈ decimal_cols) →
        ∀ cs, (add_hierarchy_columns (convert_numeric_columns
          (standardize_column_names
            (standardize_region_names x)))).getCol? c = some cs →
        hasStringCell cs = false := by
      intro c hcmem cs hcs
      have hcpr : c ≠ "parent_region" ∧ c ≠ "region_type" := by
        rcases hcmem with h | h | h | h
        · exact hg1 c h
        · exact hg2 c h
        · exact hg3 c h
        · exact hg4 c h
      rw [hS4other c hcpr.1 hcpr.2] at hcs
      exact convert_group_noString hS2emp hcmem hcs
    have hfix_chain : ∀ (w : DataFrame) (cw : Col) (tw : List Col),
        w.cols = cw :: tw → cw.cells ≠ [] →
        (∀ cl ∈ cw.cells, regionCellFn cl = cl) →
        (∀ n ∈ w.names, canonName n = n) →
        (∀ c, (c ∈ price_cols ∨ c ∈ count_cols ∨ c ∈ percentage_cols
          ∨ c ∈ decimal_cols) →
          ∀ cs, w.getCol? c = some cs → hasStringCell cs = false) →
        (∀ c ∈ percentage_cols, ∀ cs, w.getCol? c = some cs →
          ∀ v : Q, Cell.n v ∈ cs → Q.ble v ⟨3, 2⟩ = true) →
        w.getCol? "parent_region" = some (cw.cells.map parentCellFn) →
        w.getCol? "region_type" = some (cw.cells.map typeCellFn) →
        add_hierarchy_columns (convert_numeric_columns
          (standardize_column_names (standardize_region_names w))) = w := by
      intro w cw tw hwcols hwnn hwfix hwcanon hwns hwpct hgpr hgrt
      rw [standardize_region_names_fix hwcols hwfix,
        standardize_column_names_fix hwcanon,
        convert_numeric_columns_fix
          (fun c hc cs hcs => hwns c (Or.inl hc) cs hcs)
          (fun c hc cs hcs => hwns c (Or.inr (Or.inl hc)) cs hcs)
          (fun c hc cs hcs => hwns c (Or.inr (Or.inr (Or.inr hc))) cs hcs)
          (fun c hc cs hcs => ⟨hwns c (Or.inr (Or.inr (Or.inl hc))) cs hcs,
            hwpct c hc cs hcs⟩),
        add_hierarchy_columns_fix hwcols hwnn hgpr hgrt]
    have hpct_y : ∀ c ∈ percentage_cols, ∀ cs, y.getCol? c = some cs →
        ∀ v : Q, Cell.n v ∈ cs → Q.ble v ⟨3, 2⟩ = true := by
      intro c hc cs hcs v hv
      refine h3 c hc v ?_
      rw [hcs]
      exact hv
    have hfinal_plain : y = add_hierarchy_columns (convert_numeric_columns
        (standardize_column_names (standardize_region_names x))) →
        add_hierarchy_columns (convert_numeric_columns
          (standardize_column_names (standardize_region_names y))) = y
        ∧ y.empty = false := by
      intro hyeq
      have hyemp : y.empty = false := by
        rw [hyeq]
        exact hS4emp
      have hycols : y.cols = c3 :: t4 := by
        rw [hyeq]
        exact hS4cols
      have hycanon : ∀ n ∈ y.names, canonName n = n := by
        rw [hyeq]
        exact hS4canon
      have hyns : ∀ c, (c ∈ price_cols ∨ c ∈ count_cols
            ∨ c ∈ percentage_cols ∨ c ∈ decimal_cols) →
          ∀ cs, y.getCol? c = some cs → hasStringCell cs = false := by
        rw [hyeq]
        exact hS4noString
      have hypr : y.getCol? "parent_region"
          = some (c3.cells.map parentCellFn) := by
        rw [hyeq]
        exact hS4pr
      have hyrt : y.getCol? "region_type"
          = some (c3.cells.map typeCellFn) := by
        rw [hyeq]
        exact hS4rt
      exact ⟨hfix_chain y c3 t4 hycols hc3nn hc3fix hycanon hyns
        hpct_y hypr hyrt, hyemp⟩
    have hfinal_ensure : ∀ per : String,
        y = ensure_column_consistency
          (add_hierarchy_columns (convert_numeric_columns
            (standardize_column_names (standardize_region_names x))))
          (get_expected_columns p per) →
        ensure_column_consistency
          (add_hierarchy_columns (convert_numeric_columns
            (standardize_column_names (standardize_region_names y))))
          (get_expected_columns p per) = y
        ∧ y.empty = false := by
      intro per hyeq
      set expected := get_expected_columns p per with hexpdef
      clear_value expected
      obtain ⟨hyn, ⟨ty, hycols0⟩, hypres, hynew⟩ :=
        ensure_spec (add_hierarchy_columns (convert_numeric_columns
          (standardize_column_names (standardize_region_names x))))
          expected c3 t4 hS4cols hc3nn hS4nodup
      have hycols : y.cols = c3 :: ty := by
        rw [hyeq]
        exact hycols0
      have hynames : y.names = c3.name
          :: expected.filter (fun c => decide (c ≠ c3.name))
          ++ (t4.map (fun cl => cl.name)).filter
            (fun c => decide (c ∉ expected)) := by
        rw [hyeq]
        exact hyn
      have hc3mem : c3.name ∈ (add_hierarchy_columns (convert_numeric_columns
          (standardize_column_names (standardize_region_names x)))).names := by
        rw [hS4names_cons]
        exact List.mem_cons_self _ _
      have hS4namesmem : ∀ n ∈ t4.map (fun cl => cl.name),
          n ∈ (add_hierarchy_columns (convert_numeric_columns
            (standardize_column_names
              (standardize_region_names x)))).names := by
        intro n hn
        rw [hS4names_cons]
        exact List.mem_cons_of_mem _ hn
      have hrest_sub : ∀ r ∈ (t4.map (fun cl => cl.name)).filter
          (fun c => decide (c ∉ expected)), r ∉ expected := by
        intro r hr
        have h5 := (List.mem_filter.mp hr).2
        simpa using h5
      have hymem : ∀ c ∈ y.names,
          c ∈ (add_hierarchy_columns (convert_numeric_columns
            (standardize_column_names (standardize_region_names x)))).names
          ∨ c ∈ expected := by
        intro c hcmem
        rw [hynames] at hcmem
        rcases List.mem_append.mp hcmem with hcm | hcm
        · rcases List.mem_cons.mp hcm with hce | hce
          · exact Or.inl (hce ▸ hc3mem)
          · exact Or.inr (List.mem_filter.mp hce).1
        · exact Or.inl (hS4namesmem _ (List.mem_filter.mp hcm).1)
      have hyget : ∀ c cs, y.getCol? c = some cs →
          ((add_hierarchy_columns (convert_numeric_columns
            (standardize_column_names
              (standardize_region_names x)))).getCol? c = some cs
            ∨ cs = List.replicate (add_hierarchy_columns
              (convert_numeric_columns (standardize_column_names
                (standardize_region_names x)))).nrows Cell.null) := by
        intro c cs hcs
        have hcy : c ∈ y.names := by
          rw [← getCol?_isSome_iff, hcs]
          rfl
        by_cases hmem4 : c ∈ (add_hierarchy_columns (convert_numeric_columns
            (standardize_column_names
              (standardize_region_names x)))).names
        · left
          rw [hyeq, hypres c hmem4] at hcs
          exact hcs
        · right
          rcases hymem c hcy with hm | hm
          · exact absurd hm hmem4
          · rw [hyeq, hynew c hm hmem4] at hcs
            exact (Option.some_inj.mp hcs).symm
      have hyns : ∀ c, (c ∈ price_cols ∨ c ∈ count_cols
            ∨ c ∈ percentage_cols ∨ c ∈ decimal_cols) →
          ∀ cs, y.getCol? c = some cs → hasStringCell cs = false := by
        intro c hcm cs hcs
        rcases hyget c cs hcs with hg | hg
        · exact hS4noString c hcm cs hg
        · rw [hg]
          exact hasString_replicate_null _
      have hypr : y.getCol? "parent_region"
          = some (c3.cells.map parentCellFn) := by
        rw [hyeq, hypres _ ((getCol?_isSome_iff _ _).mp
          (by rw [hS4pr]; rfl))]
        exact hS4pr
      have hyrt : y.getCol? "region_type"
          = some (c3.cells.map typeCellFn) := by
        rw [hyeq, hypres _ ((getCol?_isSome_iff _ _).mp
          (by rw [hS4rt]; rfl))]
        exact hS4rt
      have hycanon : ∀ n ∈ y.names, canonName n = n := by
        intro n hn
        rcases hymem n hn with hm | hm
        · exact hS4canon n hm
        · refine expected_canon_fixed p per n ?_
          rw [hexpdef] at hm
          exact hm
      have ht4pair : (t4.map (fun cl => cl.name)).Nodup
          ∧ c3.name ∉ t4.map (fun cl => cl.name) := by
        have hh : (c3.name :: t4.map (fun cl => cl.name)).Nodup := by
          rw [← hS4names_cons]
          exact hS4nodup
        exact ⟨(List.nodup_cons.mp hh).2, (List.nodup_cons.mp hh).1⟩
      have hEnodup : (expected.filter
          (fun c => decide (c ≠ c3.name))).Nodup := by
        rw [hexpdef]
        exact List.Nodup.filter _ (expected_nodup p per)
      have hynodup : y.names.Nodup := by
        rw [hynames]
        refine List.Nodup.append ?_ ?_ ?_
        · refine List.nodup_cons.mpr ⟨?_, hEnodup⟩
          intro hmem
          have h5 := (List.mem_filter.mp hmem).2
          simp at h5
        · exact List.Nodup.filter _ ht4pair.1
        · intro a ha har
          have hanotexp := hrest_sub a har
          rcases List.mem_cons.mp ha with hae | hae
          · exact ht4pair.2 (hae ▸ (List.mem_filter.mp har).1)
          · exact hanotexp (List.mem_filter.mp hae).1
      have hyemp : y.empty = false := empty_false_of_cols hycols hc3nn
      have hchain := hfix_chain y c3 ty hycols hc3nn hc3fix hycanon hyns
        hpct_y hypr hyrt
      refine ⟨?_, hyemp⟩
      rw [hchain]
      exact ensure_fix hycols hc3nn hynodup hynames hrest_sub
    rcases d with _ | s
    · have hyeq : y = add_hierarchy_columns (convert_numeric_columns
          (standardize_column_names (standardize_region_names x))) := by
        rw [hydef]
        unfold normalize_dataset
        rw [if_neg (by simp [hempx2])]
      obtain ⟨hchainY, hyemp⟩ := hfinal_plain hyeq
      unfold normalize_dataset
      rw [if_neg (by simp [hyemp])]
      exact hchainY
    · by_cases hs : s = ""
      · subst hs
        have hyeq : y = add_hierarchy_columns (convert_numeric_columns
            (standardize_column_names (standardize_region_names x))) := by
          rw [hydef]
          unfold normalize_dataset
          rw [if_neg (by simp [hempx2])]
          rfl
        obtain ⟨hchainY, hyemp⟩ := hfinal_plain hyeq
        unfold normalize_dataset
        rw [if_neg (by simp [hyemp])]
        exact hchainY
      · by_cases hpe : p = ""
        · have hyeq : y = add_hierarchy_columns (convert_numeric_columns
              (standardize_column_names (standardize_region_names x))) := by
            rw [hydef]
            unfold normalize_dataset
            rw [if_neg (by simp [hempx2])]
            simp only [if_neg hs]
            exact if_pos hpe
          obtain ⟨hchainY, hyemp⟩ := hfinal_plain hyeq
          unfold normalize_dataset
          rw [if_neg (by simp [hyemp])]
          simp only [if_neg hs]
          exact (if_pos hpe).trans hchainY
        · have hyeq : y = ensure_column_consistency
              (add_hierarchy_columns (convert_numeric_columns
                (standardize_column_names (standardize_region_names x))))
              (get_expected_columns p (determine_period s)) := by
            rw [hydef]
            unfold normalize_dataset
            rw [if_neg (by simp [hempx2])]
            simp only [if_neg hs]
            exact if_neg hpe
          obtain ⟨hfixY, hyemp⟩ := hfinal_ensure (determine_period s) hyeq
          unfold normalize_dataset
          rw [if_neg (by simp [hyemp])]
          simp only [if_neg hs]
          exact (if_neg hpe).trans hfixY

/-- Witness for C9: a concrete one-row detached-table normalization, run
twice with the same date string and property type, is a fixed point; all
three hypotheses of the amended theorem are discharged on this input. -/
theorem c9_witness :
    normalize_dataset
      (normalize_dataset
        ⟨[⟨"Region", [.s "Halton Region"]⟩, ⟨"Sales", [.s "1,234"]⟩]⟩
        (some "2020-05") "detached")
      (some "2020-05") "detached"
    = normalize_dataset
      ⟨[⟨"Region", [.s "Halton Region"]⟩, ⟨"Sales", [.s "1,234"]⟩]⟩
      (some "2020-05") "detached" :=
  c9_normalize_idempotent _ _ _ (by decide) (by decide)
    (by
      intro c hc v hv
      fin_cases hc
      · rw [show ((normalize_dataset
            ⟨[⟨"Region", [.s "Halton Region"]⟩, ⟨"Sales", [.s "1,234"]⟩]⟩
            (some "2020-05") "detached").getCol? "SNLR Trend").getD []
            = [] from by decide] at hv
        simp at hv
      · rw [show ((normalize_dataset
            ⟨[⟨"Region", [.s "Halton Region"]⟩, ⟨"Sales", [.s "1,234"]⟩]⟩
            (some "2020-05") "detached").getCol? "Avg SP/LP").getD []
            = [Cell.null] from by decide] at hv
        simp at hv)
